import Mathlib

/-!
# Verification of the ASSUREDChain manifest store and helper modules

Shallow embedding of `app/components/project_state.py`,
`app/components/web3_client.py`, `app/components/autofill.py`,
`app/components/file_utils.py` and the snapshot-save path of
`app/pages/1_Design_Log.py`, with theorems settling the spec claims.

JSON documents are modelled by the inductive `Json`; Python dicts become
ordered association lists (Python dicts preserve insertion order, and
`setdefault` / key assignment insert fresh keys at the end, which the
association-list operations below mirror).  Integers stand in for JSON
numbers; none of the verified claims depends on float values.

The file is organised as: all definitions first, then the theorems.
-/

set_option maxHeartbeats 1000000

namespace AssuredChain

/-- A JSON value as produced by Python's `json` module: `obj` is an ordered
association list (insertion order of a Python dict). -/
inductive Json where
  | null : Json
  | bool (b : Bool) : Json
  | num (n : Int) : Json
  | str (s : String) : Json
  | arr (items : List Json) : Json
  | obj (fields : List (String × Json)) : Json
  deriving Repr, Inhabited

namespace Json

/-- `d.get k` = Python `d.get(k)` on a dict: value at the first occurrence of
key `k` (dicts have unique keys, so "first" is "the" occurrence). -/
def get : Json → String → Option Json
  | .obj fields, k => lookupField fields k
  | _, _ => none
where
  lookupField : List (String × Json) → String → Option Json
    | [], _ => none
    | (k', v) :: rest, k => if k' = k then some v else lookupField rest k

/-- Replace the value at key `k` (first occurrence), or append `(k, v)` at the
end when `k` is absent — exactly how assignment / `setdefault` extend a Python
dict while preserving insertion order. -/
def setField : List (String × Json) → String → Json → List (String × Json)
  | [], k, v => [(k, v)]
  | (k', v') :: rest, k, v =>
      if k' = k then (k, v) :: rest else (k', v') :: setField rest k v

end Json

/-! ## `project_state.py`: the manifest store -/

/-- The field list of the `files` value of `DEFAULT_STRUCTURE`. -/
def defaultFilesFields : List (String × Json) :=
  [ ("snapshots", .arr []),
    ("reports", .arr []),
    ("uploads", .arr []) ]

/-- The top-level field list of `DEFAULT_STRUCTURE`. -/
def defaultManifestFields : List (String × Json) :=
  [ ("meta", .obj
      [ ("project_name", .str ""),
        ("cell_line", .str ""),
        ("owner", .str ""),
        ("created_at", .num 0),
        ("status", .str "draft") ]),
    ("files", .obj defaultFilesFields),
    ("chain", .arr []),
    ("audit", .arr []) ]

/-- `DEFAULT_STRUCTURE` of `project_state.py` (lines 49–64), verbatim: note
that `files` has exactly the three categories `snapshots`, `reports`,
`uploads`. -/
def DEFAULT_STRUCTURE : Json :=
  .obj defaultManifestFields

/-- The key list of a JSON object (in insertion order). -/
def Json.keys : Json → List String
  | .obj fields => fields.map Prod.fst
  | _ => []

/-- State of the on-disk manifest file of one project, as far as
`load_manifest` can distinguish it: absent; present but unreadable (the read
raises `OSError`/`PermissionError`); present and readable but not valid JSON;
or present with content parsing to a JSON document. -/
inductive FileState where
  | missing : FileState
  | unreadable : FileState
  | invalid (raw : String) : FileState
  | valid (doc : Json) : FileState

/-- `save_manifest` (lines 109–116): serialises `manifest` and overwrites the
file, so afterwards the file parses back to `manifest` whatever was stored
before.  (Its own exception handler only reports write failures; the model
takes the write to succeed, which is the case the claims are about.) -/
def save_manifest (manifest : Json) (_ : FileState) : FileState :=
  .valid manifest

/-- Result of `load_manifest`: the returned document, the file state after the
call, and whether `st.warning` was emitted. -/
structure LoadResult where
  doc : Json
  state : FileState
  warned : Bool

/-- `load_manifest` (lines 94–106).  If the file exists and parses, return the
parsed document and touch nothing.  If the file exists but the read or the
parse raises, warn.  In every non-parsing case (including the file simply not
existing, where the `if path.exists()` guard skips the `try` block and hence
the warning), deep-copy `DEFAULT_STRUCTURE`, write it to disk via
`save_manifest`, and return it. -/
def load_manifest : FileState → LoadResult
  | .valid doc => ⟨doc, .valid doc, false⟩
  | .missing => ⟨DEFAULT_STRUCTURE, save_manifest DEFAULT_STRUCTURE .missing, false⟩
  | .unreadable => ⟨DEFAULT_STRUCTURE, save_manifest DEFAULT_STRUCTURE .unreadable, true⟩
  | .invalid raw => ⟨DEFAULT_STRUCTURE, save_manifest DEFAULT_STRUCTURE (.invalid raw), true⟩

/-- The in-memory edit of `register_file` (lines 125–128):
`manifest.setdefault("files", {}).setdefault(category, []).append(payload)`.
`.setdefault` returns the stored (or freshly inserted) object and the chain
mutates it in place, so the whole effect is the nested re-assignment below.
A manifest whose `files` value (or whose `files[category]` value) exists but
is not a dict (resp. a list) makes the Python chain raise `AttributeError`,
modelled by `.error`. -/
def register_file_edit (manifest : Json) (category : String) (payload : Json) :
    Except String Json :=
  match manifest with
  | .obj fields =>
    match (Json.get.lookupField fields "files").getD (.obj []) with
    | .obj cats =>
      match (Json.get.lookupField cats category).getD (.arr []) with
      | .arr items =>
          .ok (.obj (Json.setField fields "files"
            (.obj (Json.setField cats category (.arr (items ++ [payload]))))))
      | _ => .error "AttributeError: files category is not a list"
    | _ => .error "AttributeError: files is not a dict"
  | _ => .error "AttributeError: manifest is not a dict"

/-- The in-memory edit of `append_audit` (lines 119–122):
`manifest.setdefault("audit", []).append(entry)`. -/
def append_audit_edit (manifest : Json) (entry : Json) : Except String Json :=
  match manifest with
  | .obj fields =>
    match (Json.get.lookupField fields "audit").getD (.arr []) with
    | .arr items => .ok (.obj (Json.setField fields "audit" (.arr (items ++ [entry]))))
    | _ => .error "AttributeError: audit is not a list"
  | _ => .error "AttributeError: manifest is not a dict"

/-- The in-memory edit of `register_chain_tx` (lines 131–134):
`manifest.setdefault("chain", []).append(tx_payload)`. -/
def register_chain_tx_edit (manifest : Json) (tx_payload : Json) : Except String Json :=
  match manifest with
  | .obj fields =>
    match (Json.get.lookupField fields "chain").getD (.arr []) with
    | .arr items => .ok (.obj (Json.setField fields "chain" (.arr (items ++ [tx_payload]))))
    | _ => .error "AttributeError: chain is not a list"
  | _ => .error "AttributeError: manifest is not a dict"

/-- `register_file` as a whole: load the manifest, edit it, save it back. -/
def register_file (st : FileState) (category : String) (payload : Json) :
    Except String FileState :=
  let r := load_manifest st
  match register_file_edit r.doc category payload with
  | .ok m => .ok (save_manifest m r.state)
  | .error e => .error e

/-- `_deep_merge`'s loop (lines 142–152) on the field lists of two dicts:
`result` starts as a deep copy of `base`; for each `key, value` of `updates`
in order, if both `value` and `result.get(key)` are dicts the entry becomes
their recursive merge, otherwise it becomes `value`. -/
def deepMergeFields (result updates : List (String × Json)) : List (String × Json) :=
  match updates with
  | [] => result
  | (k, v) :: rest =>
    match v, Json.get.lookupField result k with
    | .obj uf, some (.obj bf) =>
        deepMergeFields (Json.setField result k (Json.obj (deepMergeFields bf uf))) rest
    | _, _ => deepMergeFields (Json.setField result k v) rest
termination_by sizeOf updates
decreasing_by
  all_goals simp_wf
  all_goals omega

/-- `_deep_merge` on arbitrary JSON `base` (its annotation says dict, but
`update_project_meta` can pass it whatever the manifest's `meta` key holds):
with no updates the loop body never runs and the deep copy of `base` is
returned as is; with at least one update, a non-dict `base` raises
(`result.get` / item assignment fail on non-dicts). -/
def deep_merge (base : Json) (updates : List (String × Json)) : Except String Json :=
  match updates, base with
  | [], _ => .ok base
  | _, .obj bf => .ok (.obj (deepMergeFields bf updates))
  | _, _ => .error "AttributeError: base is not a dict"

/-- Pointwise specification of `_deep_merge`, following the spec's sentence
"deep-merge semantics": at key `k` the merge holds the recursive merge when
both sides hold dicts there, otherwise the updates' value when present,
otherwise the base's value. -/
def mergeLookupSpec (b u : List (String × Json)) (k : String) : Option Json :=
  match Json.get.lookupField u k, Json.get.lookupField b k with
  | some (.obj uf), some (.obj bf) => some (.obj (deepMergeFields bf uf))
  | some v, _ => some v
  | none, bv => bv

/-- `update_project_meta`'s in-memory edit (lines 155–160):
`meta = manifest.get("meta", {})`, `manifest["meta"] = _deep_merge(meta,
updates)`, returning the new manifest together with the merged meta that the
function returns. -/
def update_project_meta_edit (manifest : Json) (updates : List (String × Json)) :
    Except String (Json × Json) :=
  match manifest with
  | .obj fields =>
    match deep_merge ((Json.get.lookupField fields "meta").getD (.obj [])) updates with
    | .ok merged => .ok (.obj (Json.setField fields "meta" merged), merged)
    | .error e => .error e
  | _ => .error "AttributeError: manifest is not a dict"

/-! ## `web3_client.py`: digest normalisation and the contract-call wrapper -/

/-- Python `str.lower()`, character by character (faithful on the ASCII
range, where hex digests live). -/
def pyLower (s : String) : String :=
  ⟨s.data.map Char.toLower⟩

/-- Python `str.removeprefix("0x")`: drop the first two characters when they
are `0x`, otherwise return the string unchanged. -/
def strip0x (s : String) : String :=
  if s.data.take 2 = ['0', 'x'] then ⟨s.data.drop 2⟩ else s

/-- `_normalize_digest` (web3_client.py lines 88–92):
`digest = hex_digest.lower().removeprefix("0x")`; raise `ValueError` when
`len(digest) != 64`; otherwise return `"0x" + digest`.  No hexadecimality
check is performed on the characters. -/
def normalize_digest (hex_digest : String) : Except String String :=
  let digest := strip0x (pyLower hex_digest)
  if digest.length ≠ 64 then
    .error "Digest must be a 32-byte hex string (64 hex chars)"
  else
    .ok ("0x" ++ digest)

/-- The configuration `web3_client.py` reads from `.env` at import time. -/
structure Web3Config where
  rpc : String
  chainId : Int
  contractAddress : String
  accountPrivateKey : String

/-- The environment `send_log_tx` interacts with: the provider's
connectivity, the account the key derives, the nonce the node reports, the
gas-estimation outcome (`none` = `estimate_gas` raises), and the hash/receipt
the node returns. -/
structure Web3Env where
  connected : Bool
  accountAddress : String
  nonce : Nat
  gasEstimateResult : Option Nat
  txHashHex : String
  receipt : String

/-- The transaction dict built by `build_transaction` (web3_client.py lines
111–120); `sender` is the `"from"` field, fee fields are in wei
(`to_wei(3, "gwei")` and `to_wei(1, "gwei")`). -/
structure TxParams where
  sender : String
  nonce : Nat
  chainId : Int
  gas : Nat
  maxFeePerGas : Nat
  maxPriorityFeePerGas : Nat
  deriving Repr

/-- One step of `send_log_tx`, in the order the code performs them.  The
first network contact is the `is_connected` probe inside `get_client`;
`fromKey`, `buildTransaction` and `signTransaction` are local. -/
inductive Web3Step where
  | isConnectedCheck : Web3Step
  | fromKey : Web3Step
  | getTransactionCount (addr : String) : Web3Step
  | estimateGas (contentHash stepLabel metadataURI sender : String) : Web3Step
  | buildTransaction (tx : TxParams) : Web3Step
  | signTransaction : Web3Step
  | sendRawTransaction : Web3Step
  | waitForTransactionReceipt (timeoutSeconds : Nat) : Web3Step
  deriving Repr

/-- Successful result of `send_log_tx`: the returned
`{"tx_hash": ..., "receipt": ...}` dict plus the ordered step trace. -/
structure SendLogResult where
  txHash : String
  receipt : String
  steps : List Web3Step

/-- `int(g * 1.2)`: exact on every attainable gas estimate (the float product
departs from 6g/5 by less than half an ulp for g below 2^50), modelled as
`g * 12 / 10` in exact integer arithmetic. -/
def gasTimes1_2 (g : Nat) : Nat :=
  g * 12 / 10

/-- `send_log_tx` (web3_client.py lines 95–125), with `get_client` (lines
73–85) inlined at its call site: check `ACCOUNT_PRIVATE_KEY`, then inside
`get_client` check `WEB3_PROVIDER_URL` and `CONTRACT_ADDRESS` — all three
before any network traffic — then probe connectivity, derive the account,
fetch the nonce, normalise the digest, estimate gas (falling back to 200000
when estimation raises), build the transaction with gas limit
`int(gas_estimate * 1.2) + 5000`, sign it, send it raw, and wait up to 120
seconds for the receipt. -/
def send_log_tx (cfg : Web3Config) (env : Web3Env)
    (hex_digest stepLabel metadata_uri : String) : Except String SendLogResult :=
  if cfg.accountPrivateKey = "" then
    .error "RuntimeError: ACCOUNT_PRIVATE_KEY missing in .env"
  else if cfg.rpc = "" then
    .error "RuntimeError: WEB3_PROVIDER_URL missing in .env"
  else if cfg.contractAddress = "" then
    .error "RuntimeError: CONTRACT_ADDRESS missing in .env"
  else if env.connected = false then
    .error "RuntimeError: Unable to connect to Web3 provider"
  else
    match normalize_digest hex_digest with
    | .error e => .error ("ValueError: " ++ e)
    | .ok digest_bytes32 =>
      let gasEstimate := (env.gasEstimateResult).getD 200000
      let gasLimit := gasTimes1_2 gasEstimate + 5000
      let tx : TxParams :=
        { sender := env.accountAddress
          nonce := env.nonce
          chainId := cfg.chainId
          gas := gasLimit
          maxFeePerGas := 3000000000
          maxPriorityFeePerGas := 1000000000 }
      .ok
        { txHash := env.txHashHex
          receipt := env.receipt
          steps :=
            [ .isConnectedCheck, .fromKey, .getTransactionCount env.accountAddress,
              .estimateGas digest_bytes32 stepLabel metadata_uri env.accountAddress,
              .buildTransaction tx, .signTransaction, .sendRawTransaction,
              .waitForTransactionReceipt 120 ] }

/-! ## `1_Design_Log.py`: the snapshot save path -/

/-- What the Design Log form captures for one submission, already rendered to
JSON field values (`json.loads(snapshot.model_dump_json())` of the pydantic
`DesignSnapshotV2`), in the model's declaration order. -/
structure DesignFormCapture where
  project_id : String
  author : String
  timestamp_unix : Int
  design_platform : String
  cas_variant : String
  pam_rule : String
  design_source_url : Json
  mutation : Json
  selected_guides : List Json
  additional_guides : List Json
  primer_pairs : List Json
  donors : List Json
  off_target_review : Json
  design_decision : Json
  attachments : Json

/-- `payload_dict`: the JSON document of the captured field values, holding
in particular the capture timestamp under `timestamp_unix`. -/
def DesignFormCapture.toJson (c : DesignFormCapture) : Json :=
  .obj
    [ ("project_id", .str c.project_id),
      ("author", .str c.author),
      ("timestamp_unix", .num c.timestamp_unix),
      ("design_platform", .str c.design_platform),
      ("cas_variant", .str c.cas_variant),
      ("pam_rule", .str c.pam_rule),
      ("design_source_url", c.design_source_url),
      ("mutation", c.mutation),
      ("selected_guides", .arr c.selected_guides),
      ("additional_guides", .arr c.additional_guides),
      ("primer_pairs", .arr c.primer_pairs),
      ("donors", .arr c.donors),
      ("off_target_review", c.off_target_review),
      ("design_decision", c.design_decision),
      ("attachments", c.attachments) ]

/-- Outcome of the snapshot-save block of `1_Design_Log.py` (lines 630–670):
the bytes written to the snapshot file, its path, the digest placed in
`st.session_state` and offered for anchoring, and the entry passed to
`register_file(project, "snapshots", ...)`. -/
structure SnapshotSaveOutcome where
  outfilePath : String
  fileBytes : List Nat
  sessionDigest : String
  registeredEntry : Json

/-- The snapshot-save block of `1_Design_Log.py` (lines 630–670):
`payload = json.dumps(payload_dict, indent=2).encode("utf-8")`,
`digest = sha256_bytes(payload)`,
`outfile = snapshot_dir / f"{project_id}_{timestamp}_{digest[:12]}.json"`,
`outfile.write_bytes(payload)`, then `register_file` of
`{"step": "design", "path": str(outfile), "digest": digest, "timestamp":
timestamp}`.  `dumps` (serialisation to UTF-8 bytes) and `sha256hex`
(`hashlib.sha256(b).hexdigest()`) are parameters of the model: the claim is
about which bytes are hashed and written, not about SHA-256 itself. -/
def design_snapshot_save (dumps : Json → List Nat) (sha256hex : List Nat → String)
    (snapshot_dir : String) (c : DesignFormCapture) : SnapshotSaveOutcome :=
  let payload := dumps c.toJson
  let digest := sha256hex payload
  let outfile :=
    snapshot_dir ++ "/" ++ c.project_id ++ "_" ++ toString c.timestamp_unix ++ "_"
      ++ (digest.take 12) ++ ".json"
  { outfilePath := outfile
    fileBytes := payload
    sessionDigest := digest
    registeredEntry := .obj
      [ ("step", .str "design"),
        ("path", .str outfile),
        ("digest", .str digest),
        ("timestamp", .num c.timestamp_unix) ] }

/-! ## `file_utils.py`: the recursive PDF renderer

The renderer walks an arbitrarily nested snapshot with unbounded recursion
(`render_section` / `render_dict_block` call each other on subvalues).  The
embedding makes the call stack explicit with a fuel parameter — `none` means
the recursion ran deeper than the fuel — and the totality theorem shows a
fuel bound computed from the structure of the snapshot always suffices,
which is exactly well-foundedness of the recursion on the snapshot's
structure.  Flowable styling (fonts, colors, row striping) is reduced to
style names; cell `Paragraph`s are reduced to their text. -/

/-- A reportlab flowable, reduced to the data the renderer decides on. -/
inductive PdfElem where
  | paragraph (text style : String) : PdfElem
  | table (rows : List (List String)) (colWidths : List Nat) : PdfElem
  | spacer (w h : Nat) : PdfElem
  | image (path : String) : PdfElem
  deriving Repr

/-- `heading_styles.get(level, default)` for
`heading_styles = {1: Heading2, 2: Heading3, 3: Heading4, 4: Heading5}`. -/
def headingStyleD : Nat → String → String
  | 1, _ => "Heading2"
  | 2, _ => "Heading3"
  | 3, _ => "Heading4"
  | 4, _ => "Heading5"
  | _, d => d

/-- `isinstance(value, (dict, list))`. -/
def Json.isNested : Json → Bool
  | .obj _ => true
  | .arr _ => true
  | _ => false

/-- `isinstance(value, dict)`. -/
def Json.isDict : Json → Bool
  | .obj _ => true
  | _ => false

/-- Python truthiness of a JSON value (`bool(x)`). -/
def pyTruthy : Json → Bool
  | .null => false
  | .bool b => b
  | .num n => n != 0
  | .str s => s != ""
  | .arr l => !l.isEmpty
  | .obj f => !f.isEmpty

/-- `str(value)` for the scalar values `_format_value` can receive.  Its
call sites filter out dicts and lists first (`isinstance(value, (dict,
list))` guards), so the last two arms are unreachable from the renderer. -/
def scalarStr : Json → String
  | .str s => s
  | .num n => toString n
  | .null => "None"
  | .bool b => if b then "True" else "False"
  | .arr _ => "<list>"
  | .obj _ => "<dict>"

/-- `[text[i:i+40] for i in range(0, len(text), 40)]`. -/
def chunks40 (l : List Char) : List (List Char) :=
  if h : l = [] then [] else l.take 40 :: chunks40 (l.drop 40)
termination_by l.length
decreasing_by
  simp_wf
  cases l with
  | nil => exact absurd rfl h
  | cons c rest => simp

/-- `_format_value` (file_utils.py lines 114–124): `None` renders as `-`,
booleans as Yes/No; any other scalar is stringified, and long unbroken
non-URL strings are re-chunked every 40 characters with `<br/>`. -/
def format_value (v : Json) : String :=
  match v with
  | .null => "-"
  | .bool b => if b then "Yes" else "No"
  | v =>
    let text := scalarStr v
    if 60 < text.length ∧ ('\n' ∉ text.data) ∧ text.data.take 4 ≠ ['h', 't', 't', 'p'] then
      String.intercalate "<br/>" ((chunks40 text.data).map (fun l => ⟨l⟩))
    else text

/-- `range(0, len(items), pair_count)` chunking of the scalar items (the
`pair_count = 0` arm is unreachable: callers pass `max(1, pair_count)`). -/
def chunksOf (n : Nat) (l : List (String × Json)) : List (List (String × Json)) :=
  if hn : n = 0 then []
  else
    match l with
    | [] => []
    | x :: rest => ((x :: rest).take n) :: chunksOf n ((x :: rest).drop n)
termination_by l.length
decreasing_by
  simp_wf
  omega

/-- `_column_widths` (file_utils.py lines 257–260). -/
def column_widths (pair_count : Nat) : List Nat :=
  if pair_count ≤ 1 then [190, 310] else [120, 140, 120, 140]

/-- `_grid_table` (file_utils.py lines 262–280): a header row of
`Field`/`Value` pairs, then the scalar items in chunks of `pair_count`
key/value pairs, padded with empty cells. -/
def grid_table (items : List (String × Json)) (pair_count : Nat) : List (List String) :=
  let pc := max 1 pair_count
  let header := (List.replicate pc ["Field", "Value"]).flatten
  header ::
    (chunksOf pc items).map (fun chunk =>
      (chunk.map (fun kv => [kv.1, format_value kv.2])).flatten
        ++ List.replicate (2 * (pc - chunk.length)) "")

/-- `render_scalar_table` (file_utils.py lines 241–255): a two-column
`Field`/`Value` table of the given rows followed by a spacer; nothing when
there are no rows. -/
def render_scalar_table (rows : List (String × Json)) : List PdfElem :=
  if rows.isEmpty then []
  else
    [ PdfElem.table (["Field", "Value"] :: rows.map (fun kv => [kv.1, format_value kv.2]))
        [190, 310],
      PdfElem.spacer 1 12 ]

mutual

/-- `render_section` (file_utils.py lines 301–343), fuelled.  Dicts go to
`render_dict_block` under their name as heading; lists get a heading and are
rendered as the special `entries` layout, a `No entries` note, bullet lines
(all-scalar lists), enumerated `name idx` sub-sections (all-dict lists), or
recursively enumerated sections (mixed lists); scalars become one
`name: value` line. -/
def render_sectionF : Nat → String → Json → Nat → Option (List PdfElem)
  | 0, _, _, _ => none
  | fuel + 1, name, value, level =>
    let heading_style := headingStyleD level "Heading5"
    match value with
    | .obj fields => render_dict_blockF fuel (some name) fields level
    | .arr items =>
      if (pyLower name == "entries") && items.all Json.isDict then do
        let body ← render_entriesF fuel items level heading_style 1
        pure (PdfElem.paragraph name heading_style :: body)
      else if items.isEmpty then
        some [PdfElem.paragraph name heading_style,
              PdfElem.paragraph "No entries" "Body", PdfElem.spacer 1 8]
      else if items.all (fun i => !i.isNested) then
        some (PdfElem.paragraph name heading_style ::
          items.map (fun i => PdfElem.paragraph ("- " ++ format_value i) "Body")
            ++ [PdfElem.spacer 1 8])
      else if items.all Json.isDict then do
        let body ← render_dict_itemsF fuel items name level 1
        pure (PdfElem.paragraph name heading_style :: body)
      else do
        let body ← render_mixed_itemsF fuel items name level 1
        pure (PdfElem.paragraph name heading_style :: body)
    | scalar =>
      some [PdfElem.paragraph (name ++ ": " ++ format_value scalar) "Body",
            PdfElem.spacer 1 6]

/-- `render_dict_block` (file_utils.py lines 282–299), fuelled: optional
heading, a `Field`/`Value` grid of the scalar entries (two pairs per row
when there are at least six), then the nested entries as sub-sections. -/
def render_dict_blockF : Nat → Option String → List (String × Json) → Nat →
    Option (List PdfElem)
  | 0, _, _, _ => none
  | fuel + 1, title, mapping, level =>
    let titleElems := match title with
      | some t => [PdfElem.paragraph t (headingStyleD level "Heading5")]
      | none => []
    let scalar_items := mapping.filter (fun kv => !kv.2.isNested)
    let tableElems :=
      if scalar_items.isEmpty then []
      else
        let pair_count := if 6 ≤ scalar_items.length then 2 else 1
        [PdfElem.table (grid_table scalar_items pair_count) (column_widths pair_count),
         PdfElem.spacer 1 8]
    do
      let nested ← render_nested_listF fuel mapping level
      pure (titleElems ++ tableElems ++ nested)

/-- The `for key, val in nested_items: render_section(key, val, level + 1)`
loop of `render_dict_block`; scalar entries contribute nothing (they were
already rendered in the grid). -/
def render_nested_listF : Nat → List (String × Json) → Nat → Option (List PdfElem)
  | 0, _, _ => none
  | _ + 1, [], _ => some []
  | fuel + 1, (k, v) :: rest, level =>
    if v.isNested then do
      let es ← render_sectionF fuel k v (level + 1)
      let tail ← render_nested_listF fuel rest level
      pure (es ++ tail)
    else render_nested_listF fuel rest level

/-- The `entries` loop of `render_section` (file_utils.py lines 306–321):
each entry gets its `label` (or `Entry idx`) as heading, its `data` dict, a
non-empty `attachments` dict under an `Attachments` heading, the remaining
keys as sections, and a trailing spacer.  A non-dict entry makes the Python
loop raise (`item.items()`), modelled by `none`; the guard
`all(isinstance(item, dict) for item in value)` keeps that arm unreachable. -/
def render_entriesF : Nat → List Json → Nat → String → Nat → Option (List PdfElem)
  | 0, _, _, _, _ => none
  | _ + 1, [], _, _, _ => some []
  | fuel + 1, item :: rest, level, heading_style, idx =>
    match item with
    | .obj f =>
      let lv := (Json.get (.obj f) "label").getD .null
      let label := if pyTruthy lv then scalarStr lv else "Entry " ++ toString idx
      let dataOpt : Option (List PdfElem) :=
        match Json.get (.obj f) "data" with
        | some (.obj df) => render_dict_blockF fuel none df (level + 2)
        | _ => some []
      let attachOpt : Option (List PdfElem) :=
        match Json.get (.obj f) "attachments" with
        | some (.obj af) =>
          if !af.isEmpty then render_dict_blockF fuel (some "Attachments") af (level + 2)
          else some []
        | _ => some []
      do
        let dataElems ← dataOpt
        let attachElems ← attachOpt
        let otherElems ← render_kv_listF fuel
          (f.filter (fun kv =>
            !(kv.1 == "label" || kv.1 == "data" || kv.1 == "attachments"))) (level + 2)
        let tail ← render_entriesF fuel rest level heading_style (idx + 1)
        pure (PdfElem.paragraph label (headingStyleD (level + 1) heading_style) ::
          dataElems ++ attachElems ++ otherElems ++ [PdfElem.spacer 1 6] ++ tail)
    | _ => none

/-- The `for key, val in other_items.items(): render_section(key, val,
level + 2)` loop of the `entries` layout. -/
def render_kv_listF : Nat → List (String × Json) → Nat → Option (List PdfElem)
  | 0, _, _ => none
  | _ + 1, [], _ => some []
  | fuel + 1, (k, v) :: rest, level => do
      let es ← render_sectionF fuel k v level
      let tail ← render_kv_listF fuel rest level
      pure (es ++ tail)

/-- The all-dicts list loop of `render_section` (file_utils.py lines
330–337): `name idx` headings with each dict as a block (the `else` arm is
unreachable under the `all(isinstance(item, dict))` guard but kept from the
source). -/
def render_dict_itemsF : Nat → List Json → String → Nat → Nat → Option (List PdfElem)
  | 0, _, _, _, _ => none
  | _ + 1, [], _, _, _ => some []
  | fuel + 1, item :: rest, name, level, idx =>
    let bodyOpt : Option (List PdfElem) :=
      match item with
      | .obj f => render_dict_blockF fuel none f (level + 2)
      | _ => render_sectionF fuel (name ++ " " ++ toString idx) item (level + 1)
    do
      let body ← bodyOpt
      let tail ← render_dict_itemsF fuel rest name level (idx + 1)
      pure (PdfElem.paragraph (name ++ " " ++ toString idx)
          (headingStyleD (level + 1) (headingStyleD level "Heading5")) ::
        body ++ [PdfElem.spacer 1 8] ++ tail)

/-- The mixed-list loop of `render_section` (file_utils.py lines 338–340):
every item is rendered as a `name idx` section. -/
def render_mixed_itemsF : Nat → List Json → String → Nat → Nat → Option (List PdfElem)
  | 0, _, _, _, _ => none
  | _ + 1, [], _, _, _ => some []
  | fuel + 1, item :: rest, name, level, idx => do
      let es ← render_sectionF fuel (name ++ " " ++ toString idx) item (level + 1)
      let tail ← render_mixed_itemsF fuel rest name level (idx + 1)
      pure (es ++ tail)

end

/-- `Path(s).name`: the last path component (either separator). -/
def baseNameAux : List Char → List Char → List Char
  | [], acc => acc
  | c :: rest, acc =>
    if c = '/' ∨ c = '\\' then baseNameAux rest []
    else baseNameAux rest (acc ++ [c])

/-- `Path(s).name`. -/
def pathBaseName (s : String) : String :=
  ⟨baseNameAux s.data []⟩

/-- `Path(s).as_posix()`: backslashes become forward slashes. -/
def asPosix (s : String) : String :=
  ⟨s.data.map (fun c => if c = '\\' then '/' else c)⟩

mutual

/-- The `walk` closure of `_collect_file_paths` (file_utils.py lines
127–147), fuelled: depth-first over dicts (labels joined with `.`) and lists
(labels indexed with `[i]`); a string that `fileExists` accepts and that was
not collected before is appended with its label (or its basename when the
label is empty).  `fileExists` stands for `candidate.exists() and
candidate.is_file()`; `seen` threads the `seen` set in insertion order. -/
def collect_walkF : Nat → Json → String → List String → (String → Bool) →
    Option (List (String × String) × List String)
  | 0, _, _, _, _ => none
  | _ + 1, .str s, label, seen, fileExists =>
    if fileExists s && !seen.contains s then
      some ([((if label = "" then pathBaseName s else label), s)], seen ++ [s])
    else some ([], seen)
  | fuel + 1, .obj fields, label, seen, fileExists =>
      collect_fieldsF fuel fields label seen fileExists
  | fuel + 1, .arr items, label, seen, fileExists =>
      collect_itemsF fuel items label 0 seen fileExists
  | _ + 1, _, _, seen, _ => some ([], seen)

/-- The dict arm of the walk: `walk(value, f"{label}.{key}" if label else
key)` over the fields in order. -/
def collect_fieldsF : Nat → List (String × Json) → String → List String →
    (String → Bool) → Option (List (String × String) × List String)
  | 0, _, _, _, _ => none
  | _ + 1, [], _, seen, _ => some ([], seen)
  | fuel + 1, (k, v) :: rest, label, seen, fileExists => do
      let (es, seen') ← collect_walkF fuel v (if label = "" then k else label ++ "." ++ k)
        seen fileExists
      let (tail, seen'') ← collect_fieldsF fuel rest label seen' fileExists
      pure (es ++ tail, seen'')

/-- The list arm of the walk: `walk(item, f"{label}[{idx}]")`. -/
def collect_itemsF : Nat → List Json → String → Nat → List String →
    (String → Bool) → Option (List (String × String) × List String)
  | 0, _, _, _, _, _ => none
  | _ + 1, [], _, _, seen, _ => some ([], seen)
  | fuel + 1, item :: rest, label, idx, seen, fileExists => do
      let (es, seen') ← collect_walkF fuel item (label ++ "[" ++ toString idx ++ "]")
        seen fileExists
      let (tail, seen'') ← collect_itemsF fuel rest label (idx + 1) seen' fileExists
      pure (es ++ tail, seen'')

end

/-- The top-level `for key, value in snapshot.items()` loop of
`snapshot_to_pdf` (file_utils.py lines 355–359): `attachments` and `files`
are skipped, nested values become level-1 sections. -/
def render_top_fieldsF : Nat → List (String × Json) → Option (List PdfElem)
  | 0, _ => none
  | _ + 1, [] => some []
  | fuel + 1, (k, v) :: rest =>
    if k == "attachments" || k == "files" then render_top_fieldsF fuel rest
    else if v.isNested then do
      let es ← render_sectionF fuel k v 1
      let tail ← render_top_fieldsF fuel rest
      pure (es ++ tail)
    else render_top_fieldsF fuel rest

/-- The rendered document: `SimpleDocTemplate(str(pdf_path), ...)` built
with the assembled elements. -/
structure PdfDoc where
  path : String
  elements : List PdfElem

/-- `snapshot_to_pdf` (file_utils.py lines 170–410), fuelled: optional logo,
title, a `Summary` table of the snapshot's top-level scalars, the recursive
walk over its nested values (or a single `Snapshot` section for a non-dict
snapshot), the non-image attachments table, the images block, and the
generation footer.  `logo` is the resolved existing logo (or `none`),
`imageOk` stands for reportlab accepting an image file, and `genTime` for
`time.strftime(...)`. -/
def snapshot_to_pdfF (fuel : Nat) (snapshot : Json) (pdf_path title : String)
    (image_paths : List String) (logo : Option String)
    (fileExists imageOk : String → Bool) (genTime : String) : Option PdfDoc :=
  let logoElems := match logo with
    | some p => [PdfElem.image p, PdfElem.spacer 1 12]
    | none => []
  let titleElems := [PdfElem.paragraph title "Title", PdfElem.spacer 1 14]
  let mainOpt : Option (List PdfElem) :=
    match snapshot with
    | .obj fields =>
      let scalar_rows := fields.filter (fun kv => !kv.2.isNested)
      let summary :=
        if scalar_rows.isEmpty then []
        else PdfElem.paragraph "Summary" (headingStyleD 1 "Heading5") ::
          render_scalar_table scalar_rows
      do
        let walk ← render_top_fieldsF fuel fields
        pure (summary ++ walk)
    | _ => render_sectionF fuel "Snapshot" snapshot 1
  do
  let mainElems ← mainOpt
  let (attachment_entries, _) ← collect_walkF fuel snapshot "" [] fileExists
  let other_attachments := attachment_entries.filter
    (fun e => !image_paths.contains e.2)
  let attachElems :=
    if other_attachments.isEmpty then []
    else
      PdfElem.paragraph "Attachments" (headingStyleD 1 "Heading5") ::
        [PdfElem.table
          (["Label", "Path"] ::
            other_attachments.map (fun e =>
              [(if e.1 = "" then pathBaseName e.2 else e.1), asPosix e.2]))
          [200, 290],
         PdfElem.spacer 1 12]
  let imageElems :=
    if image_paths.isEmpty then []
    else
      PdfElem.paragraph "Images" (headingStyleD 1 "Heading5") ::
        (image_paths.map (fun p =>
          if imageOk p then
            [PdfElem.image p, PdfElem.paragraph (pathBaseName p) "Caption",
             PdfElem.spacer 1 12]
          else
            [PdfElem.paragraph
              ("[Image attachment could not be rendered: " ++ pathBaseName p ++ "]")
              "Caption",
             PdfElem.spacer 1 12])).flatten
  let footer := [PdfElem.spacer 1 6,
    PdfElem.paragraph ("Generated on " ++ genTime ++ " (local)") "Footer"]
  pure { path := pdf_path
         elements := logoElems ++ titleElems ++ mainElems ++ attachElems
           ++ imageElems ++ footer }

/-! ## `autofill.py`: `parse_guides_and_donors`

Character-level embedding of the regex-driven parser.  `DNA_RE`
(`[ACGTUacgtu]{15,}`) is embedded as maximal-run extraction; the two
Benchling label regexes are abstracted into a `labelFinds` parameter (the
sequence of captured groups their `finditer` loops produce), and Python
`float(...)` into a `tryFloat` parameter — the verified claims hold for every
choice of both.  Python string predicates are modelled on the ASCII range. -/

/-- ASCII whitespace for Python `str.strip()`. -/
def isSpaceChar (c : Char) : Bool :=
  c = ' ' ∨ c = '\t' ∨ c = '\n' ∨ c = '\r' ∨ c = '\x0b' ∨ c = '\x0c'

/-- Python `str.strip()` on the character list. -/
def pyStrip (l : List Char) : List Char :=
  ((l.dropWhile isSpaceChar).reverse.dropWhile isSpaceChar).reverse

/-- A character of the `DNA_RE` class `[ACGTUacgtu]`. -/
def isDnaChar (c : Char) : Bool :=
  c = 'A' ∨ c = 'C' ∨ c = 'G' ∨ c = 'T' ∨ c = 'U' ∨
    c = 'a' ∨ c = 'c' ∨ c = 'g' ∨ c = 't' ∨ c = 'u'

/-- A character kept by `_clean_seq`'s `re.sub` (class `[ACGTUNacgtun]`). -/
def isCleanChar (c : Char) : Bool :=
  c = 'A' ∨ c = 'C' ∨ c = 'G' ∨ c = 'T' ∨ c = 'U' ∨ c = 'N' ∨
    c = 'a' ∨ c = 'c' ∨ c = 'g' ∨ c = 't' ∨ c = 'u' ∨ c = 'n'

/-- `_clean_seq` (autofill.py lines 10–11):
`re.sub(r"[^ACGTUNacgtun]", "", seq.strip()).upper().replace("U", "T")`. -/
def clean_seq (s : String) : String :=
  ⟨(((pyStrip s.data).filter isCleanChar).map Char.toUpper).map
    (fun c => if c = 'U' then 'T' else c)⟩

/-- `text.replace("\r\n", "\n").replace("\r", "\n")`: every `\r\n` pair and
every remaining lone `\r` becomes `\n`. -/
def normalizeNewlines : List Char → List Char
  | [] => []
  | c :: rest =>
    if c = '\r' then
      if rest.head? = some '\n' then '\n' :: normalizeNewlines rest.tail
      else '\n' :: normalizeNewlines rest
    else c :: normalizeNewlines rest
termination_by l => l.length
decreasing_by
  all_goals simp_wf
  all_goals try omega
  all_goals (cases rest <;> simp <;> try omega)

/-- Maximal runs of `DNA_RE`-class characters (the accumulator holds the
current run reversed). -/
def dnaRunsAux : List Char → List Char → List (List Char)
  | [], acc => if acc.isEmpty then [] else [acc.reverse]
  | c :: rest, acc =>
    if isDnaChar c then dnaRunsAux rest (c :: acc)
    else if acc.isEmpty then dnaRunsAux rest []
    else acc.reverse :: dnaRunsAux rest []

/-- `DNA_RE.findall`: the maximal DNA-character runs of length at least 15
(the regex consumes each maximal run greedily and only matches when it has
at least 15 characters). -/
def dnaFindall (l : List Char) : List (List Char) :=
  (dnaRunsAux l []).filter (fun r => 15 ≤ r.length)

/-- `re.split` on a single-character class, keeping empty pieces. -/
def splitKeepEmpty (sep : Char → Bool) : List Char → List Char → List (List Char)
  | [], acc => [acc.reverse]
  | c :: rest, acc =>
    if sep c then acc.reverse :: splitKeepEmpty sep rest []
    else splitKeepEmpty sep rest (c :: acc)

/-- The delimiter class `[\t,;|]` of the CRISPOR table splitter. -/
def isSepChar (c : Char) : Bool :=
  c = '\t' ∨ c = ',' ∨ c = ';' ∨ c = '|'

/-- Substring containment (`pat in hay`). -/
def containsSub : List Char → List Char → Bool
  | [], pat => pat.isEmpty
  | hay@(_ :: rest), pat => pat.isPrefixOf hay || containsSub rest pat

/-- The CRISPOR header test (autofill.py lines 52–56): the lowercased line
contains `position`, `strand`, `sequence` and `pam`. -/
def isHeaderLine (l : List Char) : Bool :=
  let low := l.map Char.toLower
  containsSub low "position".data && containsSub low "strand".data &&
    containsSub low "sequence".data && containsSub low "pam".data

/-- First header line and the lines after it (`header_idx` and
`lines[header_idx + 1:]`). -/
def splitAtHeader : List (List Char) → Option (List Char × List (List Char))
  | [] => none
  | l :: rest => if isHeaderLine l then some (l, rest) else splitAtHeader rest

/-- `header_map = {part.strip().lower(): i for i, part in enumerate(...)}`
then `.get(key, -1)`: the index of the last part whose stripped lowercased
form equals `key` (a Python dict comprehension keeps the last duplicate). -/
def colIndex (parts : List (List Char)) (key : List Char) : Option Nat :=
  ((List.range parts.length).zip parts).foldl
    (fun acc ip => if (pyStrip ip.2).map Char.toLower = key then some ip.1 else acc)
    none

/-- `parts[col]` guarded by `col >= 0 and col < len(parts)`. -/
def getCol (parts : List (List Char)) : Option Nat → Option (List Char)
  | some i => parts.get? i
  | none => none

/-- A parsed guide row.  The fallback paths produce dicts holding only
`sequence` and `pam`; the model uses `none` for the fields they omit. -/
structure Guide where
  sequence : String
  pam : String
  strand : Option String
  genomic_locus : Option String
  on_target_score : Option Float
  off_target_score : Option Float

/-- The parsed ssODN donor dict. -/
structure Donor where
  donor_type : String
  sequence : String
  length_nt : Nat

/-- The result dict of `parse_guides_and_donors`. -/
structure ParseResult where
  guides : List Guide
  donor : Option Donor

/-- One CRISPOR data row (autofill.py lines 70–113): skip blank lines and
rows of fewer than three cells; clean the sequence cell and keep the row
only when its length is 19–24; normalise PAM (falling back to the default),
strand, position, and the two float scores (`tryFloat` models `float`,
`none` both for a missing column and a `ValueError`). -/
def crisporRow (tryFloat : String → Option Float) (default_pam : String)
    (posCol strandCol seqCol pamCol specCol effCol : Option Nat)
    (line : List Char) : Option Guide :=
  if (pyStrip line).isEmpty then none
  else
    let parts := splitKeepEmpty isSepChar (pyStrip line) []
    if parts.length < 3 then none
    else
      let guide_seq := match getCol parts seqCol with
        | some p => clean_seq ⟨p⟩
        | none => ""
      if ¬ (19 ≤ guide_seq.length ∧ guide_seq.length ≤ 24) then none
      else
        let pam0 : String := match getCol parts pamCol with
          | some p => ⟨(pyStrip p).map Char.toUpper⟩
          | none => ""
        let pam_val := if pam0 = "" then default_pam else pam0
        let strand_val : String := match getCol parts strandCol with
          | some p => ⟨pyStrip p⟩
          | none => ""
        let strand_norm : Option String :=
          if strand_val = "1" ∨ strand_val = "+" ∨ strand_val = "plus" then some "+"
          else if strand_val = "-1" ∨ strand_val = "-" ∨ strand_val = "minus" then some "-"
          else none
        let genomic_locus : Option String := match getCol parts posCol with
          | some p =>
            let ps := pyStrip p
            if ¬ ps.isEmpty ∧ ps.all Char.isDigit then some ("chr:pos=" ++ ⟨ps⟩)
            else none
          | none => none
        some
          { sequence := guide_seq
            pam := pam_val
            strand := strand_norm
            genomic_locus := genomic_locus
            on_target_score := (getCol parts specCol).bind (fun p => tryFloat ⟨pyStrip p⟩)
            off_target_score := (getCol parts effCol).bind (fun p => tryFloat ⟨pyStrip p⟩) }

/-- The CRISPOR table path (autofill.py lines 58–113). -/
def crisporGuides (tryFloat : String → Option Float) (default_pam : String)
    (header : List Char) (rows : List (List Char)) : List Guide :=
  let header_parts := splitKeepEmpty isSepChar (pyStrip header) []
  let posCol := colIndex header_parts "position".data
  let strandCol := colIndex header_parts "strand".data
  let seqCol := colIndex header_parts "sequence".data
  let pamCol := colIndex header_parts "pam".data
  let specCol := match colIndex header_parts "specificity score".data with
    | some i => some i
    | none => colIndex header_parts "specificity".data
  let effCol := match colIndex header_parts "efficiency score".data with
    | some i => some i
    | none => colIndex header_parts "efficiency".data
  rows.filterMap (crisporRow tryFloat default_pam posCol strandCol seqCol pamCol specCol effCol)

/-- `(default_pam or "").strip().upper()` of the fallback paths. -/
def fallbackPam (default_pam : String) : String :=
  ⟨(pyStrip default_pam.data).map Char.toUpper⟩

/-- The TSV/CSV fallback path (autofill.py lines 117–130): per non-blank
line, the cleaned `DNA_RE` tokens of length 19–24 of its cells, at most
three per line. -/
def fallbackGuides (default_pam : String) (lines : List (List Char)) : List Guide :=
  lines.flatMap (fun line =>
    if (pyStrip line).isEmpty then []
    else
      let parts := splitKeepEmpty isSepChar line []
      let dna_tokens := parts.flatMap (fun part =>
        ((dnaFindall part).map (fun t => clean_seq ⟨t⟩)).filter
          (fun c => 19 ≤ c.length ∧ c.length ≤ 24))
      (dna_tokens.take 3).map (fun tok =>
        { sequence := tok, pam := fallbackPam default_pam, strand := none,
          genomic_locus := none, on_target_score := none, off_target_score := none }))

/-- The Benchling labeled-sequence path (autofill.py lines 132–142):
`labelFinds` yields the captured groups of both label regexes in order;
each cleans to a guide when its length is 19–24. -/
def labelGuides (default_pam : String) (found : List String) : List Guide :=
  found.filterMap (fun m =>
    let cleaned := clean_seq m
    if 19 ≤ cleaned.length ∧ cleaned.length ≤ 24 then
      some { sequence := cleaned, pam := fallbackPam default_pam, strand := none,
             genomic_locus := none, on_target_score := none, off_target_score := none }
    else none)

/-- The dedup loop (autofill.py lines 144–152): keep a guide when its
sequence is non-empty and not seen yet, in order. -/
def dedupGuides : List Guide → List String → List Guide
  | [], _ => []
  | g :: rest, seen =>
    if g.sequence ≠ "" ∧ ¬ seen.contains g.sequence then
      g :: dedupGuides rest (g.sequence :: seen)
    else dedupGuides rest seen

/-- Python `max(candidates, key=len)`: the first candidate of maximal
length (`best` is the running maximum; a strictly longer element replaces
it). -/
def maxByLen : List String → String → String
  | [], best => best
  | s :: rest, best => if best.length < s.length then maxByLen rest s else maxByLen rest best

/-- The CRISPOR path (autofill.py lines 48–113): empty when no header line
is detected. -/
def crisporPath (tryFloat : String → Option Float) (default_pam : String)
    (lines : List (List Char)) : List Guide :=
  match splitAtHeader lines with
  | some (header, rows) => crisporGuides tryFloat default_pam header rows
  | none => []

/-- The pre-dedup guide list (autofill.py lines 46–142): the CRISPOR table
path when a header is present, else the TSV/CSV fallback path, else the
Benchling labeled-sequence path; each later path runs only when the earlier
ones produced no guides. -/
def allGuides (tryFloat : String → Option Float) (labelFinds : String → List String)
    (default_pam : String) (normalized : List Char) : List Guide :=
  let lines := splitKeepEmpty (fun c => c = '\n') normalized []
  let guides1 := crisporPath tryFloat default_pam lines
  let guides2 := if guides1.isEmpty then fallbackGuides default_pam lines else guides1
  if guides2.isEmpty then labelGuides default_pam (labelFinds ⟨normalized⟩) else guides2

/-- The donor extraction (autofill.py lines 154–168): cleaned `DNA_RE` runs
of length at least 60 are candidates; the longest (first of maximal length,
as `max(..., key=len)`) becomes the ssODN donor. -/
def donorOf (normalized : List Char) : Option Donor :=
  let donor_candidates :=
    ((dnaFindall normalized).map (fun t => clean_seq ⟨t⟩)).filter (fun c => 60 ≤ c.length)
  let donor_seq := match donor_candidates with
    | [] => ""
    | c :: cs => maxByLen cs c
  if donor_seq = "" then none
  else some { donor_type := "ssODN", sequence := donor_seq, length_nt := donor_seq.length }

/-- `parse_guides_and_donors` (autofill.py lines 14–170): empty input short
circuits; otherwise the collected guides are deduplicated (first occurrence
wins) and capped at six, and the donor is extracted from the normalised
text. -/
def parse_guides_and_donors (tryFloat : String → Option Float)
    (labelFinds : String → List String) (pasted : String) (default_pam : String) :
    ParseResult :=
  let text := pyStrip pasted.data
  if text.isEmpty then { guides := [], donor := none }
  else
    let normalized := normalizeNewlines text
    { guides := (dedupGuides (allGuides tryFloat labelFinds default_pam normalized) []).take 6
      donor := donorOf normalized }

end AssuredChain

namespace AssuredChain

/-! ## Theorems about the association-list primitives -/

@[simp] theorem Json.lookupField_nil (k : String) : Json.get.lookupField [] k = none := rfl

theorem Json.lookupField_cons (k' k : String) (v : Json) (rest : List (String × Json)) :
    Json.get.lookupField ((k', v) :: rest) k =
      if k' = k then some v else Json.get.lookupField rest k := rfl

/-- Lookup after `setField`: the written key reads back the new value, every
other key is untouched. Holds with no key-uniqueness hypothesis because both
`lookupField` and `setField` act on the first occurrence. -/
theorem Json.lookupField_setField (fields : List (String × Json)) (k k' : String) (v : Json) :
    Json.get.lookupField (Json.setField fields k v) k' =
      if k = k' then some v else Json.get.lookupField fields k' := by
  induction fields with
  | nil => simp [Json.setField, Json.lookupField_cons]
  | cons hd tl ih =>
    obtain ⟨hk, hv⟩ := hd
    by_cases h : hk = k
    · subst h
      simp only [Json.setField, if_pos rfl, Json.lookupField_cons]
      by_cases h' : hk = k'
      · subst h'; simp [Json.lookupField_cons]
      · have h'' : ¬ hk = k' := h'
        simp [Json.lookupField_cons, h'']
    · simp only [Json.setField, if_neg h, Json.lookupField_cons]
      by_cases h' : hk = k'
      · subst h'
        have : ¬ k = hk := fun hh => h hh.symm
        simp [this]
      · simp [h', ih]

theorem Json.lookupField_eq_none {l : List (String × Json)} {k : String}
    (h : k ∉ l.map Prod.fst) : Json.get.lookupField l k = none := by
  induction l with
  | nil => rfl
  | cons hd tl ih =>
    obtain ⟨hk, hv⟩ := hd
    simp only [List.map_cons, List.mem_cons] at h
    push_neg at h
    rw [Json.lookupField_cons, if_neg (fun he => h.1 he.symm)]
    exact ih h.2

/-! ## Theorems about the manifest operations -/

/-- The successful-path equation for `register_file_edit`: when `files` is
absent or a dict and `files[category]` is absent or a list, the edit replaces
`files[category]` by the old list with `payload` appended. -/
theorem register_file_edit_eq (fields cats : List (String × Json)) (items : List Json)
    (category : String) (payload : Json)
    (hf : Json.get.lookupField fields "files" = some (.obj cats) ∨
          (Json.get.lookupField fields "files" = none ∧ cats = []))
    (hc : Json.get.lookupField cats category = some (.arr items) ∨
          (Json.get.lookupField cats category = none ∧ items = [])) :
    register_file_edit (.obj fields) category payload =
      .ok (.obj (Json.setField fields "files"
        (.obj (Json.setField cats category (.arr (items ++ [payload])))))) := by
  rcases hf with hf | ⟨hf, hcats⟩
  · rcases hc with hc | ⟨hc, hitems⟩
    · simp [register_file_edit, hf, hc]
    · subst hitems; simp [register_file_edit, hf, hc]
  · subst hcats
    rcases hc with hc | ⟨hc, hitems⟩
    · simp at hc
    · subst hitems; simp [register_file_edit, hf]

theorem register_file_edit_frame (fields cats : List (String × Json)) (items : List Json)
    (category : String) (payload : Json)
    (hf : Json.get.lookupField fields "files" = some (.obj cats) ∨
          (Json.get.lookupField fields "files" = none ∧ cats = []))
    (hc : Json.get.lookupField cats category = some (.arr items) ∨
          (Json.get.lookupField cats category = none ∧ items = [])) :
    ∃ m', register_file_edit (.obj fields) category payload = .ok m' ∧
      register_file (.valid (.obj fields)) category payload = .ok (.valid m') ∧
      (∃ cats', m'.get "files" = some (.obj cats') ∧
        Json.get.lookupField cats' category = some (.arr (items ++ [payload])) ∧
        (∀ c, c ≠ category → Json.get.lookupField cats' c = Json.get.lookupField cats c)) ∧
      (∀ k, k ≠ "files" → m'.get k = Json.get.lookupField fields k) := by
  have heq := register_file_edit_eq fields cats items category payload hf hc
  refine ⟨_, heq, ?_, ⟨Json.setField cats category (.arr (items ++ [payload])), ?_, ?_, ?_⟩, ?_⟩
  · simp [register_file, load_manifest, heq, save_manifest]
  · show Json.get.lookupField (Json.setField fields "files" _) "files" = _
    rw [Json.lookupField_setField, if_pos rfl]
  · rw [Json.lookupField_setField, if_pos rfl]
  · intro c hcne
    rw [Json.lookupField_setField, if_neg (fun he => hcne he.symm)]
  · intro k hk
    show Json.get.lookupField (Json.setField fields "files" _) k = _
    rw [Json.lookupField_setField, if_neg (fun he => hk he.symm)]

theorem append_audit_edit_frame (fields : List (String × Json)) (items : List Json)
    (entry : Json)
    (ha : Json.get.lookupField fields "audit" = some (.arr items) ∨
          (Json.get.lookupField fields "audit" = none ∧ items = [])) :
    ∃ m', append_audit_edit (.obj fields) entry = .ok m' ∧
      m'.get "audit" = some (.arr (items ++ [entry])) ∧
      (∀ k, k ≠ "audit" → m'.get k = Json.get.lookupField fields k) := by
  have heq : append_audit_edit (.obj fields) entry =
      .ok (.obj (Json.setField fields "audit" (.arr (items ++ [entry])))) := by
    rcases ha with ha | ⟨ha, hitems⟩
    · simp [append_audit_edit, ha]
    · subst hitems; simp [append_audit_edit, ha]
  refine ⟨_, heq, ?_, ?_⟩
  · show Json.get.lookupField (Json.setField fields "audit" _) "audit" = _
    rw [Json.lookupField_setField, if_pos rfl]
  · intro k hk
    show Json.get.lookupField (Json.setField fields "audit" _) k = _
    rw [Json.lookupField_setField, if_neg (fun he => hk he.symm)]

theorem register_chain_tx_edit_frame (fields : List (String × Json)) (items : List Json)
    (tx_payload : Json)
    (ha : Json.get.lookupField fields "chain" = some (.arr items) ∨
          (Json.get.lookupField fields "chain" = none ∧ items = [])) :
    ∃ m', register_chain_tx_edit (.obj fields) tx_payload = .ok m' ∧
      m'.get "chain" = some (.arr (items ++ [tx_payload])) ∧
      (∀ k, k ≠ "chain" → m'.get k = Json.get.lookupField fields k) := by
  have heq : register_chain_tx_edit (.obj fields) tx_payload =
      .ok (.obj (Json.setField fields "chain" (.arr (items ++ [tx_payload])))) := by
    rcases ha with ha | ⟨ha, hitems⟩
    · simp [register_chain_tx_edit, ha]
    · subst hitems; simp [register_chain_tx_edit, ha]
  refine ⟨_, heq, ?_, ?_⟩
  · show Json.get.lookupField (Json.setField fields "chain" _) "chain" = _
    rw [Json.lookupField_setField, if_pos rfl]
  · intro k hk
    show Json.get.lookupField (Json.setField fields "chain" _) k = _
    rw [Json.lookupField_setField, if_neg (fun he => hk he.symm)]

/-- C1: for every manifest (with `files` absent or a dict, and the category
absent or a list, as the claim's "creating ... if absent" contemplates),
`register_file` loads the manifest, appends the payload as the single new
last element of `files[category]`, and saves the whole manifest back; every
previously present entry of that list keeps its value and position (the new
list is the old one with `payload` appended), every other file category is
unchanged, and every other top-level key — in particular `meta`, `chain` and
`audit` — is unchanged.  `append_audit` and `register_chain_tx` satisfy the
same append-and-frame postcondition for `audit` and `chain`. -/
theorem register_file_append_and_frame :
    (∀ (fields cats : List (String × Json)) (items : List Json)
       (category : String) (payload : Json),
      (Json.get.lookupField fields "files" = some (.obj cats) ∨
          (Json.get.lookupField fields "files" = none ∧ cats = [])) →
      (Json.get.lookupField cats category = some (.arr items) ∨
          (Json.get.lookupField cats category = none ∧ items = [])) →
      ∃ m', register_file_edit (.obj fields) category payload = .ok m' ∧
        register_file (.valid (.obj fields)) category payload = .ok (.valid m') ∧
        (∃ cats', m'.get "files" = some (.obj cats') ∧
          Json.get.lookupField cats' category = some (.arr (items ++ [payload])) ∧
          (∀ c, c ≠ category → Json.get.lookupField cats' c = Json.get.lookupField cats c)) ∧
        (∀ k, k ≠ "files" → m'.get k = Json.get.lookupField fields k)) ∧
    (∀ (fields : List (String × Json)) (items : List Json) (entry : Json),
      (Json.get.lookupField fields "audit" = some (.arr items) ∨
          (Json.get.lookupField fields "audit" = none ∧ items = [])) →
      ∃ m', append_audit_edit (.obj fields) entry = .ok m' ∧
        m'.get "audit" = some (.arr (items ++ [entry])) ∧
        (∀ k, k ≠ "audit" → m'.get k = Json.get.lookupField fields k)) ∧
    (∀ (fields : List (String × Json)) (items : List Json) (tx_payload : Json),
      (Json.get.lookupField fields "chain" = some (.arr items) ∨
          (Json.get.lookupField fields "chain" = none ∧ items = [])) →
      ∃ m', register_chain_tx_edit (.obj fields) tx_payload = .ok m' ∧
        m'.get "chain" = some (.arr (items ++ [tx_payload])) ∧
        (∀ k, k ≠ "chain" → m'.get k = Json.get.lookupField fields k)) :=
  ⟨fun fields cats items category payload hf hc =>
      register_file_edit_frame fields cats items category payload hf hc,
   fun fields items entry ha => append_audit_edit_frame fields items entry ha,
   fun fields items tx ha => register_chain_tx_edit_frame fields items tx ha⟩

/-- Witness for C1 at the default manifest: the hypotheses hold there
(`files` is a dict holding the `snapshots` list, `audit` and `chain` are
lists), and the theorem applies. -/
theorem register_file_append_and_frame_witness :
    (Json.get.lookupField defaultManifestFields "files" = some (.obj defaultFilesFields) ∧
     Json.get.lookupField defaultFilesFields "snapshots" = some (.arr []) ∧
     Json.get.lookupField defaultManifestFields "audit" = some (.arr []) ∧
     Json.get.lookupField defaultManifestFields "chain" = some (.arr [])) ∧
    (∃ m', register_file_edit (.obj defaultManifestFields) "snapshots" (.str "p") = .ok m' ∧
      register_file (.valid (.obj defaultManifestFields)) "snapshots" (.str "p") =
        .ok (.valid m') ∧
      (∃ cats', m'.get "files" = some (.obj cats') ∧
        Json.get.lookupField cats' "snapshots" = some (.arr ([] ++ [Json.str "p"])) ∧
        (∀ c, c ≠ "snapshots" →
          Json.get.lookupField cats' c = Json.get.lookupField defaultFilesFields c)) ∧
      (∀ k, k ≠ "files" → m'.get k = Json.get.lookupField defaultManifestFields k)) ∧
    (∃ m', append_audit_edit (.obj defaultManifestFields) (.str "e") = .ok m' ∧
      m'.get "audit" = some (.arr ([] ++ [Json.str "e"])) ∧
      (∀ k, k ≠ "audit" → m'.get k = Json.get.lookupField defaultManifestFields k)) ∧
    (∃ m', register_chain_tx_edit (.obj defaultManifestFields) (.str "t") = .ok m' ∧
      m'.get "chain" = some (.arr ([] ++ [Json.str "t"])) ∧
      (∀ k, k ≠ "chain" → m'.get k = Json.get.lookupField defaultManifestFields k)) :=
  ⟨⟨rfl, rfl, rfl, rfl⟩,
   register_file_append_and_frame.1 defaultManifestFields defaultFilesFields [] "snapshots"
     (.str "p") (Or.inl rfl) (Or.inl rfl),
   register_file_append_and_frame.2.1 defaultManifestFields [] (.str "e") (Or.inl rfl),
   register_file_append_and_frame.2.2 defaultManifestFields [] (.str "t") (Or.inl rfl)⟩

/-! ## Theorems about `_deep_merge` -/

theorem mergeLookupSpec_nil (b : List (String × Json)) (k : String) :
    mergeLookupSpec b [] k = Json.get.lookupField b k := rfl

/-- Unfolding one iteration of the `_deep_merge` loop: the head update
`(hk, hv)` is written into the accumulator (recursively merged when both
sides hold dicts), then the remaining updates are processed. -/
theorem deepMergeFields_cons (b rest : List (String × Json)) (hk : String) (hv : Json) :
    deepMergeFields b ((hk, hv) :: rest) =
      deepMergeFields
        (Json.setField b hk
          (match hv, Json.get.lookupField b hk with
           | .obj uf, some (.obj bf) => Json.obj (deepMergeFields bf uf)
           | _, _ => hv)) rest := by
  cases hv <;> cases hb : Json.get.lookupField b hk <;>
    (rw [deepMergeFields.eq_def]; try simp only [hb])
  all_goals rename_i v
  all_goals cases v <;> rfl

/-- One pass of the `_deep_merge` loop, seen through `mergeLookupSpec`:
processing the head update `(hk, hv)` into the accumulator and then merging
the remaining updates is the same as merging all updates at once, provided
`hk` does not recur among the remaining update keys. -/
theorem mergeLookupSpec_cons_step (b rest : List (String × Json)) (hk : String)
    (hv : Json) (k : String) (hnotin : hk ∉ rest.map Prod.fst) :
    mergeLookupSpec
      (Json.setField b hk
        (match hv, Json.get.lookupField b hk with
         | .obj uf, some (.obj bf) => Json.obj (deepMergeFields bf uf)
         | _, _ => hv)) rest k =
    mergeLookupSpec b ((hk, hv) :: rest) k := by
  by_cases hkk : hk = k
  · subst hkk
    have hrest : Json.get.lookupField rest hk = none := Json.lookupField_eq_none hnotin
    unfold mergeLookupSpec
    rw [hrest, Json.lookupField_setField, if_pos rfl, Json.lookupField_cons, if_pos rfl]
    cases hv <;> cases hb : Json.get.lookupField b hk <;> try rfl
    all_goals rename_i v
    all_goals cases v <;> rfl
  · unfold mergeLookupSpec
    rw [Json.lookupField_setField, if_neg hkk, Json.lookupField_cons, if_neg hkk]

/-- The loop of `_deep_merge`, characterised pointwise: for dicts (key lists
without duplicates, as Python dicts guarantee) the result maps each key
exactly as `mergeLookupSpec` prescribes. -/
theorem deepMergeFields_lookup (u : List (String × Json)) :
    ∀ (b : List (String × Json)) (k : String), (u.map Prod.fst).Nodup →
    Json.get.lookupField (deepMergeFields b u) k = mergeLookupSpec b u k := by
  induction u with
  | nil =>
    intro b k _
    rw [mergeLookupSpec_nil, deepMergeFields.eq_1]
  | cons hd rest ih =>
    obtain ⟨hk, hv⟩ := hd
    intro b k hnd
    simp only [List.map_cons, List.nodup_cons] at hnd
    obtain ⟨hnotin, hnd'⟩ := hnd
    rw [deepMergeFields_cons, ih _ k hnd']
    exact mergeLookupSpec_cons_step b rest hk hv k hnotin

/-- C2: `_deep_merge` implements deep-merge semantics — pointwise, the merged
dict holds the recursive merge where both sides hold dicts, otherwise the
updates' value where present, otherwise the base's value (the base argument is
never mutated: the embedding of the Python function, which works on a deep
copy, is a pure function of it) — and `update_project_meta` applies exactly
this merge to the manifest's `meta` key (defaulting to `{}` when absent) and
returns the merged meta. -/
theorem deep_merge_and_update_meta_correct :
    (∀ (b u : List (String × Json)) (k : String), (u.map Prod.fst).Nodup →
      Json.get.lookupField (deepMergeFields b u) k = mergeLookupSpec b u k) ∧
    (∀ (fields mf updates : List (String × Json)),
      (Json.get.lookupField fields "meta" = some (.obj mf) ∨
        (Json.get.lookupField fields "meta" = none ∧ mf = [])) →
      update_project_meta_edit (.obj fields) updates =
        .ok (.obj (Json.setField fields "meta" (.obj (deepMergeFields mf updates))),
             .obj (deepMergeFields mf updates))) := by
  constructor
  · exact fun b u k h => deepMergeFields_lookup u b k h
  · intro fields mf updates hmeta
    have hdm : deep_merge (.obj mf) updates = .ok (.obj (deepMergeFields mf updates)) := by
      cases updates with
      | nil => rw [deepMergeFields.eq_1]; rfl
      | cons hd tl => rfl
    rcases hmeta with hm | ⟨hm, hmf⟩
    · simp [update_project_meta_edit, hm, hdm]
    · subst hmf
      simp [update_project_meta_edit, hm, hdm]

/-- Witness for C2 at a concrete base and update dict (with a nested dict on
the shared key `n`, so the recursive branch is exercised). -/
theorem deep_merge_and_update_meta_correct_witness :
    (((([("n", Json.obj [("y", Json.num 2)]), ("b", Json.num 3)] :
        List (String × Json)).map Prod.fst).Nodup) ∧
     Json.get.lookupField
        (deepMergeFields [("a", Json.num 1), ("n", Json.obj [("x", Json.num 1)])]
          [("n", Json.obj [("y", Json.num 2)]), ("b", Json.num 3)]) "n" =
      mergeLookupSpec [("a", Json.num 1), ("n", Json.obj [("x", Json.num 1)])]
        [("n", Json.obj [("y", Json.num 2)]), ("b", Json.num 3)] "n") ∧
    (Json.get.lookupField defaultManifestFields "meta" =
      some (.obj
        [ ("project_name", .str ""), ("cell_line", .str ""), ("owner", .str ""),
          ("created_at", .num 0), ("status", .str "draft") ]) ∧
     update_project_meta_edit (.obj defaultManifestFields) [("owner", Json.str "o")] =
      .ok (.obj (Json.setField defaultManifestFields "meta"
            (.obj (deepMergeFields
              [ ("project_name", .str ""), ("cell_line", .str ""), ("owner", .str ""),
                ("created_at", .num 0), ("status", .str "draft") ]
              [("owner", Json.str "o")]))),
           .obj (deepMergeFields
              [ ("project_name", .str ""), ("cell_line", .str ""), ("owner", .str ""),
                ("created_at", .num 0), ("status", .str "draft") ]
              [("owner", Json.str "o")]))) :=
  ⟨⟨by decide,
    deep_merge_and_update_meta_correct.1
      [("a", Json.num 1), ("n", Json.obj [("x", Json.num 1)])]
      [("n", Json.obj [("y", Json.num 2)]), ("b", Json.num 3)] "n" (by decide)⟩,
   rfl,
   deep_merge_and_update_meta_correct.2 defaultManifestFields
     [ ("project_name", .str ""), ("cell_line", .str ""), ("owner", .str ""),
       ("created_at", .num 0), ("status", .str "draft") ]
     [("owner", Json.str "o")] (Or.inl rfl)⟩

/-! ## Theorems about `load_manifest` / `DEFAULT_STRUCTURE` -/

/-- C3 counterexample: the claim lists `exports` among the categories of the
fresh manifest's `files`, but the default document `load_manifest` returns
for a project without a manifest file has no `exports` key in `files` —
`DEFAULT_STRUCTURE` only holds `snapshots`, `reports`, `uploads`. -/
theorem load_manifest_missing_no_exports :
    ((load_manifest .missing).doc.get "files").bind (fun f => f.get "exports") = none ∧
    (load_manifest .missing).doc = DEFAULT_STRUCTURE := ⟨rfl, rfl⟩

/-- C3 (amended): for a project whose manifest file does not exist,
`load_manifest` returns a document with exactly the top-level keys `meta`,
`files`, `chain`, `audit`, where `files` maps each of the category names
`snapshots`, `reports`, `uploads` — and no others, in particular not
`exports` — to an initially empty list. -/
theorem load_manifest_missing_default_shape :
    (load_manifest .missing).doc.keys = ["meta", "files", "chain", "audit"] ∧
    ((load_manifest .missing).doc.get "files").map Json.keys =
      some ["snapshots", "reports", "uploads"] ∧
    ((load_manifest .missing).doc.get "files").bind (fun f => f.get "snapshots") =
      some (.arr []) ∧
    ((load_manifest .missing).doc.get "files").bind (fun f => f.get "reports") =
      some (.arr []) ∧
    ((load_manifest .missing).doc.get "files").bind (fun f => f.get "uploads") =
      some (.arr []) :=
  ⟨rfl, rfl, rfl, rfl, rfl⟩

/-- C5 counterexample: when the manifest file is simply missing,
`load_manifest` emits no warning — the `st.warning` calls sit in the `except`
arms of a `try` block that is skipped entirely when `path.exists()` is
false — contradicting the claim that a warning is emitted in the missing
case as well. -/
theorem load_manifest_missing_no_warning :
    (load_manifest .missing).warned = false ∧
    (load_manifest .missing).doc = DEFAULT_STRUCTURE := ⟨rfl, rfl⟩

/-- C5 (amended): `load_manifest` returns the parsed document when the
manifest file exists and its content parses as JSON; when the file exists but
is unreadable or not valid JSON it emits a warning and returns a fresh deep
copy of the default structure; when the file is missing it returns the fresh
default without emitting a warning; in no case does it raise (the embedding
is a total function on every file state). -/
theorem load_manifest_error_handling (st : FileState) :
    (∀ doc, st = .valid doc → load_manifest st = ⟨doc, st, false⟩) ∧
    (st = .missing →
      (load_manifest st).doc = DEFAULT_STRUCTURE ∧ (load_manifest st).warned = false) ∧
    ((st = .unreadable ∨ ∃ raw, st = .invalid raw) →
      (load_manifest st).doc = DEFAULT_STRUCTURE ∧ (load_manifest st).warned = true) := by
  refine ⟨?_, ?_, ?_⟩
  · rintro doc rfl; rfl
  · rintro rfl; exact ⟨rfl, rfl⟩
  · rintro (rfl | ⟨raw, rfl⟩) <;> exact ⟨rfl, rfl⟩

/-- Witness for C5 (amended) at an unreadable manifest file. -/
theorem load_manifest_error_handling_witness :
    (load_manifest .unreadable).doc = DEFAULT_STRUCTURE ∧
    (load_manifest .unreadable).warned = true :=
  (load_manifest_error_handling .unreadable).2.2 (Or.inl rfl)

/-- C8: `load_manifest` is not read-only.  Whenever the manifest file is
missing, unreadable, or holds bytes that fail to parse, it writes a fresh
default manifest to disk via `save_manifest` before returning, so the file
afterwards holds exactly the default document — whatever bytes (including a
corrupt but recoverable manifest) were stored there before; when the file
exists and parses, the file on disk is left unchanged. -/
theorem load_manifest_writes_default (st : FileState) :
    (∀ doc, st = .valid doc → (load_manifest st).state = st) ∧
    ((st = .missing ∨ st = .unreadable ∨ ∃ raw, st = .invalid raw) →
      (load_manifest st).state = save_manifest DEFAULT_STRUCTURE st ∧
      (load_manifest st).state = .valid DEFAULT_STRUCTURE) := by
  constructor
  · rintro doc rfl; rfl
  · rintro (rfl | rfl | ⟨raw, rfl⟩) <;> exact ⟨rfl, rfl⟩

/-- Witness for C8 at a file holding corrupt (non-JSON) bytes. -/
theorem load_manifest_writes_default_witness :
    (load_manifest (.invalid "not json")).state =
      save_manifest DEFAULT_STRUCTURE (.invalid "not json") ∧
    (load_manifest (.invalid "not json")).state = .valid DEFAULT_STRUCTURE :=
  (load_manifest_writes_default _).2 (Or.inr (Or.inr ⟨"not json", rfl⟩))

/-! ## Theorems about `web3_client.py` -/

/-- C9: `_normalize_digest` raises `ValueError` exactly when its argument,
lowercased and with an optional `0x` prefix removed, does not have length 64;
for every 64-character remainder it returns `0x` followed by that lowercased
remainder.  It performs no check that the characters are hexadecimal digits:
the last two conjuncts show the 64-character non-hex string `"z" * 64` (none
of whose characters is a hex digit) being accepted rather than rejected. -/
theorem normalize_digest_spec :
    (∀ s : String, (strip0x (pyLower s)).length = 64 →
      normalize_digest s = .ok ("0x" ++ strip0x (pyLower s))) ∧
    (∀ s : String, (strip0x (pyLower s)).length ≠ 64 →
      normalize_digest s = .error "Digest must be a 32-byte hex string (64 hex chars)") ∧
    normalize_digest (String.mk (List.replicate 64 'z')) =
      .ok ("0x" ++ String.mk (List.replicate 64 'z')) ∧
    'z' ∉ "0123456789abcdefABCDEF".data := by
  refine ⟨?_, ?_, ?_, ?_⟩
  · intro s h
    simp [normalize_digest, h]
  · intro s h
    simp [normalize_digest, h]
  · rfl
  · decide

/-- Witness for C9 on a concrete digest of 64 `'a'` characters. -/
theorem normalize_digest_spec_witness :
    (strip0x (pyLower (String.mk (List.replicate 64 'a')))).length = 64 ∧
    normalize_digest (String.mk (List.replicate 64 'a')) =
      .ok ("0x" ++ strip0x (pyLower (String.mk (List.replicate 64 'a')))) :=
  ⟨by decide, normalize_digest_spec.1 _ (by decide)⟩

/-- C6: `send_log_tx` performs the wrapper steps in order — connectivity
probe, account derivation, nonce fetch, gas estimation for
`log(contentHash, step, metadataURI)` (falling back to 200000 when the
estimation raises), building a transaction whose gas limit is
`int(gas_estimate * 1.2) + 5000`, signing with the configured key, sending
raw, and waiting up to 120 seconds for the receipt — returning the
transaction hash and receipt.  When `ACCOUNT_PRIVATE_KEY`,
`WEB3_PROVIDER_URL`, or `CONTRACT_ADDRESS` is missing it raises
`RuntimeError` before contacting the network: the result is the same error
for every network environment. -/
theorem send_log_tx_spec :
    (∀ (cfg : Web3Config) (env : Web3Env) (hex_digest stepLabel uri digest32 : String),
      cfg.accountPrivateKey ≠ "" → cfg.rpc ≠ "" → cfg.contractAddress ≠ "" →
      env.connected = true →
      normalize_digest hex_digest = .ok digest32 →
      send_log_tx cfg env hex_digest stepLabel uri =
        .ok { txHash := env.txHashHex
              receipt := env.receipt
              steps :=
                [ .isConnectedCheck, .fromKey, .getTransactionCount env.accountAddress,
                  .estimateGas digest32 stepLabel uri env.accountAddress,
                  .buildTransaction
                    { sender := env.accountAddress
                      nonce := env.nonce
                      chainId := cfg.chainId
                      gas := gasTimes1_2 ((env.gasEstimateResult).getD 200000) + 5000
                      maxFeePerGas := 3000000000
                      maxPriorityFeePerGas := 1000000000 }
                  , .signTransaction, .sendRawTransaction,
                  .waitForTransactionReceipt 120 ] }) ∧
    (∀ cfg : Web3Config,
      (cfg.accountPrivateKey = "" ∨ cfg.rpc = "" ∨ cfg.contractAddress = "") →
      ∃ msg, ∀ (env env' : Web3Env) (h s u : String),
        send_log_tx cfg env h s u = .error msg ∧
        send_log_tx cfg env h s u = send_log_tx cfg env' h s u) := by
  constructor
  · intro cfg env hex_digest stepLabel uri digest32 h1 h2 h3 h4 h5
    simp [send_log_tx, h1, h2, h3, h4, h5]
  · intro cfg hmiss
    by_cases hk : cfg.accountPrivateKey = ""
    · exact ⟨"RuntimeError: ACCOUNT_PRIVATE_KEY missing in .env", fun env env' h s u =>
        ⟨by simp [send_log_tx, hk], by simp [send_log_tx, hk]⟩⟩
    · by_cases hr : cfg.rpc = ""
      · exact ⟨"RuntimeError: WEB3_PROVIDER_URL missing in .env", fun env env' h s u =>
          ⟨by simp [send_log_tx, hk, hr], by simp [send_log_tx, hk, hr]⟩⟩
      · rcases hmiss with hk' | hr' | hc
        · exact absurd hk' hk
        · exact absurd hr' hr
        · exact ⟨"RuntimeError: CONTRACT_ADDRESS missing in .env", fun env env' h s u =>
            ⟨by simp [send_log_tx, hk, hr, hc], by simp [send_log_tx, hk, hr, hc]⟩⟩

/-- Witness for C6 on a concrete configuration and network environment. -/
theorem send_log_tx_spec_witness :
    (("0xKEY" : String) ≠ "" ∧ ("http://rpc" : String) ≠ "" ∧
      ("0xC0" : String) ≠ "" ∧
      normalize_digest (String.mk (List.replicate 64 'a')) =
        .ok ("0x" ++ String.mk (List.replicate 64 'a'))) ∧
    send_log_tx ⟨"http://rpc", 11155111, "0xC0", "0xKEY"⟩
        ⟨true, "0xAddr", 7, some 21000, "0xhash", "rcpt"⟩
        (String.mk (List.replicate 64 'a')) "Design" "" =
      .ok { txHash := "0xhash"
            receipt := "rcpt"
            steps :=
              [ .isConnectedCheck, .fromKey, .getTransactionCount "0xAddr",
                .estimateGas ("0x" ++ String.mk (List.replicate 64 'a')) "Design" "" "0xAddr",
                .buildTransaction
                  { sender := "0xAddr"
                    nonce := 7
                    chainId := 11155111
                    gas := gasTimes1_2 ((some 21000).getD 200000) + 5000
                    maxFeePerGas := 3000000000
                    maxPriorityFeePerGas := 1000000000 }
                , .signTransaction, .sendRawTransaction,
                .waitForTransactionReceipt 120 ] } :=
  ⟨⟨by decide, by decide, by decide, rfl⟩,
   send_log_tx_spec.1 ⟨"http://rpc", 11155111, "0xC0", "0xKEY"⟩
     ⟨true, "0xAddr", 7, some 21000, "0xhash", "rcpt"⟩
     (String.mk (List.replicate 64 'a')) "Design" ""
     ("0x" ++ String.mk (List.replicate 64 'a'))
     (by decide) (by decide) (by decide) rfl rfl⟩

/-! ## Theorems about the PDF renderer -/

theorem isSome_bind_of {α β : Type} {o : Option α} {f : α → Option β}
    (h1 : o.isSome) (h2 : ∀ a, (f a).isSome) : (o >>= f).isSome := by
  cases o with
  | none => simp at h1
  | some a => simpa using h2 a

/-- A value stored in an association list is structurally smaller than the
list. -/
theorem sizeOf_lookupField {f : List (String × Json)} {k : String} {v : Json}
    (h : Json.get.lookupField f k = some v) : sizeOf v + 2 ≤ sizeOf f := by
  induction f with
  | nil => simp at h
  | cons hd tl ih =>
    obtain ⟨k', v'⟩ := hd
    rw [Json.lookupField_cons] at h
    by_cases hk : k' = k
    · rw [if_pos hk] at h
      obtain rfl : v' = v := Option.some.inj h
      simp only [List.cons.sizeOf_spec, Prod.mk.sizeOf_spec]
      have : 0 ≤ sizeOf k' := Nat.zero_le _
      omega
    · rw [if_neg hk] at h
      have := ih h
      simp only [List.cons.sizeOf_spec, Prod.mk.sizeOf_spec]
      omega

theorem sizeOf_filter_le (p : String × Json → Bool) (l : List (String × Json)) :
    sizeOf (l.filter p) ≤ sizeOf l := by
  induction l with
  | nil => simp
  | cons hd tl ih =>
    by_cases hp : p hd
    · simp only [List.filter, hp, List.cons.sizeOf_spec]
      omega
    · simp only [List.filter, Bool.not_eq_true] at hp ⊢
      rw [hp]
      simp only [List.cons.sizeOf_spec]
      omega

/-- Fuel adequacy for the whole mutual renderer: fuel `2·sizeOf + O(1)` —
a bound computed from the structure of the snapshot alone — always suffices,
i.e. the recursion of `render_section` / `render_dict_block` is well-founded
on the structure of the snapshot. -/
theorem renderF_success : ∀ fuel : Nat,
    (∀ (name : String) (v : Json) (level : Nat), 2 * sizeOf v + 1 ≤ fuel →
      (render_sectionF fuel name v level).isSome) ∧
    (∀ (title : Option String) (mapping : List (String × Json)) (level : Nat),
      2 * sizeOf mapping + 2 ≤ fuel →
      (render_dict_blockF fuel title mapping level).isSome) ∧
    (∀ (l : List (String × Json)) (level : Nat), 2 * sizeOf l + 1 ≤ fuel →
      (render_nested_listF fuel l level).isSome) ∧
    (∀ (items : List Json) (level : Nat) (hs : String) (idx : Nat),
      2 * sizeOf items + 1 ≤ fuel → items.all Json.isDict = true →
      (render_entriesF fuel items level hs idx).isSome) ∧
    (∀ (l : List (String × Json)) (level : Nat), 2 * sizeOf l + 1 ≤ fuel →
      (render_kv_listF fuel l level).isSome) ∧
    (∀ (items : List Json) (name : String) (level idx : Nat),
      2 * sizeOf items + 1 ≤ fuel →
      (render_dict_itemsF fuel items name level idx).isSome) ∧
    (∀ (items : List Json) (name : String) (level idx : Nat),
      2 * sizeOf items + 1 ≤ fuel →
      (render_mixed_itemsF fuel items name level idx).isSome) := by
  intro fuel
  induction fuel with
  | zero =>
    refine ⟨?_, ?_, ?_, ?_, ?_, ?_, ?_⟩ <;> intros <;> omega
  | succ n ih =>
    obtain ⟨ihS, ihD, ihN, ihE, ihK, ihI, ihM⟩ := ih
    refine ⟨?_, ?_, ?_, ?_, ?_, ?_, ?_⟩
    · -- render_sectionF
      intro name v level hb
      cases v with
      | obj fields =>
        have hfs : 2 * sizeOf fields + 2 ≤ n := by
          simp only [Json.obj.sizeOf_spec] at hb; omega
        simpa only [render_sectionF] using ihD (some name) fields level hfs
      | arr items =>
        have hit : 2 * sizeOf items + 1 ≤ n := by
          simp only [Json.arr.sizeOf_spec] at hb; omega
        simp only [render_sectionF]
        by_cases hc1 : ((pyLower name == "entries") && items.all Json.isDict) = true
        · rw [if_pos hc1]
          have hall : items.all Json.isDict = true :=
            (Bool.and_eq_true _ _ |>.mp hc1).2
          exact isSome_bind_of (ihE items level _ 1 hit hall) (fun a => rfl)
        · rw [if_neg hc1]
          by_cases hc2 : items.isEmpty = true
          · rw [if_pos hc2]; rfl
          · rw [if_neg hc2]
            by_cases hc3 : items.all (fun i => !i.isNested) = true
            · rw [if_pos hc3]; rfl
            · rw [if_neg hc3]
              by_cases hc4 : items.all Json.isDict = true
              · rw [if_pos hc4]
                exact isSome_bind_of (ihI items name level 1 hit) (fun a => rfl)
              · rw [if_neg hc4]
                exact isSome_bind_of (ihM items name level 1 hit) (fun a => rfl)
      | null => simp [render_sectionF]
      | bool b => simp [render_sectionF]
      | num m => simp [render_sectionF]
      | str s => simp [render_sectionF]
    · -- render_dict_blockF
      intro title mapping level hb
      have hm : 2 * sizeOf mapping + 1 ≤ n := by omega
      cases title with
      | some t =>
        simp only [render_dict_blockF]
        exact isSome_bind_of (ihN mapping level hm) (fun a => rfl)
      | none =>
        simp only [render_dict_blockF]
        exact isSome_bind_of (ihN mapping level hm) (fun a => rfl)
    · -- render_nested_listF
      intro l level hb
      cases l with
      | nil => simp [render_nested_listF]
      | cons kv rest =>
        obtain ⟨k, v⟩ := kv
        have hsz : sizeOf ((k, v) :: rest) = 2 + sizeOf k + sizeOf v + sizeOf rest := by
          simp only [List.cons.sizeOf_spec, Prod.mk.sizeOf_spec]; omega
        have hv : 2 * sizeOf v + 1 ≤ n := by rw [hsz] at hb; omega
        have hr : 2 * sizeOf rest + 1 ≤ n := by rw [hsz] at hb; omega
        simp only [render_nested_listF]
        by_cases hn : v.isNested = true
        · rw [if_pos hn]
          exact isSome_bind_of (ihS k v (level + 1) hv)
            (fun a => isSome_bind_of (ihN rest level hr) (fun b => rfl))
        · rw [if_neg hn]
          exact ihN rest level hr
    · -- render_entriesF
      intro items level hs idx hb hall
      cases items with
      | nil => simp [render_entriesF]
      | cons item rest =>
        simp only [List.all_cons, Bool.and_eq_true] at hall
        obtain ⟨hitem, hrest⟩ := hall
        cases item with
        | obj f =>
          have hsz : sizeOf (Json.obj f :: rest) = 2 + sizeOf f + sizeOf rest := by
            simp only [List.cons.sizeOf_spec, Json.obj.sizeOf_spec]; omega
          have hfn : 2 * sizeOf f + 1 ≤ n := by rw [hsz] at hb; omega
          have hrn : 2 * sizeOf rest + 1 ≤ n := by rw [hsz] at hb; omega
          have hdata : (match Json.get (Json.obj f) "data" with
              | some (.obj df) => render_dict_blockF n none df (level + 2)
              | _ => some ([] : List PdfElem)).isSome := by
            cases hd : Json.get (Json.obj f) "data" with
            | none => rfl
            | some dv =>
              cases dv with
              | obj df =>
                have hlt := sizeOf_lookupField (f := f) (k := "data") (v := Json.obj df) hd
                have : 2 * sizeOf df + 2 ≤ n := by
                  simp only [Json.obj.sizeOf_spec] at hlt; omega
                exact ihD none df (level + 2) this
              | null => rfl
              | bool b => rfl
              | num m => rfl
              | str s => rfl
              | arr l => rfl
          have hattach : (match Json.get (Json.obj f) "attachments" with
              | some (.obj af) =>
                if !af.isEmpty then render_dict_blockF n (some "Attachments") af (level + 2)
                else some []
              | _ => some ([] : List PdfElem)).isSome := by
            cases ha : Json.get (Json.obj f) "attachments" with
            | none => rfl
            | some av =>
              cases av with
              | obj af =>
                have hlt := sizeOf_lookupField (f := f) (k := "attachments")
                  (v := Json.obj af) ha
                have haf : 2 * sizeOf af + 2 ≤ n := by
                  simp only [Json.obj.sizeOf_spec] at hlt; omega
                cases hemp : (!af.isEmpty) with
                | false => simp [hemp]
                | true => simpa [hemp] using ihD (some "Attachments") af (level + 2) haf
              | null => rfl
              | bool b => rfl
              | num m => rfl
              | str s => rfl
              | arr l => rfl
          have hother : (render_kv_listF n
              (f.filter (fun kv =>
                !(kv.1 == "label" || kv.1 == "data" || kv.1 == "attachments")))
              (level + 2)).isSome := by
            have hfil := sizeOf_filter_le
              (fun kv => !(kv.1 == "label" || kv.1 == "data" || kv.1 == "attachments")) f
            exact ihK _ (level + 2) (by omega)
          simp only [render_entriesF]
          exact isSome_bind_of hdata (fun a => isSome_bind_of hattach (fun b =>
            isSome_bind_of hother (fun c =>
              isSome_bind_of (ihE rest level hs (idx + 1) hrn hrest) (fun d => rfl))))
        | null => simp [Json.isDict] at hitem
        | bool b => simp [Json.isDict] at hitem
        | num m => simp [Json.isDict] at hitem
        | str s => simp [Json.isDict] at hitem
        | arr l => simp [Json.isDict] at hitem
    · -- render_kv_listF
      intro l level hb
      cases l with
      | nil => simp [render_kv_listF]
      | cons kv rest =>
        obtain ⟨k, v⟩ := kv
        have hsz : sizeOf ((k, v) :: rest) = 2 + sizeOf k + sizeOf v + sizeOf rest := by
          simp only [List.cons.sizeOf_spec, Prod.mk.sizeOf_spec]; omega
        have hv : 2 * sizeOf v + 1 ≤ n := by rw [hsz] at hb; omega
        have hr : 2 * sizeOf rest + 1 ≤ n := by rw [hsz] at hb; omega
        simp only [render_kv_listF]
        exact isSome_bind_of (ihS k v level hv)
          (fun a => isSome_bind_of (ihK rest level hr) (fun b => rfl))
    · -- render_dict_itemsF
      intro items name level idx hb
      cases items with
      | nil => simp [render_dict_itemsF]
      | cons item rest =>
        have hsz : sizeOf (item :: rest) = 1 + sizeOf item + sizeOf rest := by
          simp only [List.cons.sizeOf_spec]
        have hi : 2 * sizeOf item + 1 ≤ n := by rw [hsz] at hb; omega
        have hr : 2 * sizeOf rest + 1 ≤ n := by rw [hsz] at hb; omega
        have hbody : (match item with
            | .obj f => render_dict_blockF n none f (level + 2)
            | _ => render_sectionF n (name ++ " " ++ toString idx) item
                (level + 1)).isSome := by
          cases item with
          | obj f =>
            have : 2 * sizeOf f + 2 ≤ n := by
              simp only [Json.obj.sizeOf_spec] at hi; omega
            exact ihD none f (level + 2) this
          | null => exact ihS _ _ _ hi
          | bool b => exact ihS _ _ _ hi
          | num m => exact ihS _ _ _ hi
          | str s => exact ihS _ _ _ hi
          | arr l => exact ihS _ _ _ hi
        cases item with
        | obj f =>
          simp only [render_dict_itemsF]
          exact isSome_bind_of hbody
            (fun a => isSome_bind_of (ihI rest name level (idx + 1) hr) (fun b => rfl))
        | null =>
          simp only [render_dict_itemsF]
          exact isSome_bind_of hbody
            (fun a => isSome_bind_of (ihI rest name level (idx + 1) hr) (fun b => rfl))
        | bool b =>
          simp only [render_dict_itemsF]
          exact isSome_bind_of hbody
            (fun a => isSome_bind_of (ihI rest name level (idx + 1) hr) (fun b => rfl))
        | num m =>
          simp only [render_dict_itemsF]
          exact isSome_bind_of hbody
            (fun a => isSome_bind_of (ihI rest name level (idx + 1) hr) (fun b => rfl))
        | str s =>
          simp only [render_dict_itemsF]
          exact isSome_bind_of hbody
            (fun a => isSome_bind_of (ihI rest name level (idx + 1) hr) (fun b => rfl))
        | arr l =>
          simp only [render_dict_itemsF]
          exact isSome_bind_of hbody
            (fun a => isSome_bind_of (ihI rest name level (idx + 1) hr) (fun b => rfl))
    · -- render_mixed_itemsF
      intro items name level idx hb
      cases items with
      | nil => simp [render_mixed_itemsF]
      | cons item rest =>
        have hsz : sizeOf (item :: rest) = 1 + sizeOf item + sizeOf rest := by
          simp only [List.cons.sizeOf_spec]
        have hi : 2 * sizeOf item + 1 ≤ n := by rw [hsz] at hb; omega
        have hr : 2 * sizeOf rest + 1 ≤ n := by rw [hsz] at hb; omega
        simp only [render_mixed_itemsF]
        exact isSome_bind_of (ihS _ item _ hi)
          (fun a => isSome_bind_of (ihM rest name level (idx + 1) hr) (fun b => rfl))

/-- Fuel adequacy for the `_collect_file_paths` walk. -/
theorem collectF_success : ∀ fuel : Nat,
    (∀ (node : Json) (label : String) (seen : List String) (fe : String → Bool),
      2 * sizeOf node + 1 ≤ fuel → (collect_walkF fuel node label seen fe).isSome) ∧
    (∀ (fields : List (String × Json)) (label : String) (seen : List String)
      (fe : String → Bool),
      2 * sizeOf fields + 1 ≤ fuel → (collect_fieldsF fuel fields label seen fe).isSome) ∧
    (∀ (items : List Json) (label : String) (idx : Nat) (seen : List String)
      (fe : String → Bool),
      2 * sizeOf items + 1 ≤ fuel → (collect_itemsF fuel items label idx seen fe).isSome) := by
  intro fuel
  induction fuel with
  | zero => refine ⟨?_, ?_, ?_⟩ <;> intros <;> omega
  | succ n ih =>
    obtain ⟨ihW, ihF, ihJ⟩ := ih
    refine ⟨?_, ?_, ?_⟩
    · intro node label seen fe hb
      cases node with
      | obj fields =>
        have hf : 2 * sizeOf fields + 1 ≤ n := by
          simp only [Json.obj.sizeOf_spec] at hb; omega
        simpa only [collect_walkF] using ihF fields label seen fe hf
      | arr items =>
        have hi : 2 * sizeOf items + 1 ≤ n := by
          simp only [Json.arr.sizeOf_spec] at hb; omega
        simpa only [collect_walkF] using ihJ items label 0 seen fe hi
      | str s =>
        simp only [collect_walkF]
        split <;> rfl
      | null => simp [collect_walkF]
      | bool b => simp [collect_walkF]
      | num m => simp [collect_walkF]
    · intro fields label seen fe hb
      cases fields with
      | nil => simp [collect_fieldsF]
      | cons kv rest =>
        obtain ⟨k, v⟩ := kv
        have hsz : sizeOf ((k, v) :: rest) = 2 + sizeOf k + sizeOf v + sizeOf rest := by
          simp only [List.cons.sizeOf_spec, Prod.mk.sizeOf_spec]; omega
        have hv : 2 * sizeOf v + 1 ≤ n := by rw [hsz] at hb; omega
        have hr : 2 * sizeOf rest + 1 ≤ n := by rw [hsz] at hb; omega
        simp only [collect_fieldsF]
        refine isSome_bind_of (ihW v _ seen fe hv) (fun a => ?_)
        obtain ⟨es, seen'⟩ := a
        exact isSome_bind_of (ihF rest label seen' fe hr)
          (fun b => by obtain ⟨tail, seen''⟩ := b; rfl)
    · intro items label idx seen fe hb
      cases items with
      | nil => simp [collect_itemsF]
      | cons item rest =>
        have hsz : sizeOf (item :: rest) = 1 + sizeOf item + sizeOf rest := by
          simp only [List.cons.sizeOf_spec]
        have hv : 2 * sizeOf item + 1 ≤ n := by rw [hsz] at hb; omega
        have hr : 2 * sizeOf rest + 1 ≤ n := by rw [hsz] at hb; omega
        simp only [collect_itemsF]
        refine isSome_bind_of (ihW item _ seen fe hv) (fun a => ?_)
        obtain ⟨es, seen'⟩ := a
        exact isSome_bind_of (ihJ rest label (idx + 1) seen' fe hr)
          (fun b => by obtain ⟨tail, seen''⟩ := b; rfl)

/-- Fuel adequacy for the top-level `snapshot.items()` loop. -/
theorem render_top_fieldsF_success : ∀ (fuel : Nat) (fields : List (String × Json)),
    2 * sizeOf fields + 1 ≤ fuel → (render_top_fieldsF fuel fields).isSome := by
  intro fuel
  induction fuel with
  | zero => intro fields hb; omega
  | succ n ih =>
    intro fields hb
    cases fields with
    | nil => simp [render_top_fieldsF]
    | cons kv rest =>
      obtain ⟨k, v⟩ := kv
      have hsz : sizeOf ((k, v) :: rest) = 2 + sizeOf k + sizeOf v + sizeOf rest := by
        simp only [List.cons.sizeOf_spec, Prod.mk.sizeOf_spec]; omega
      have hv : 2 * sizeOf v + 1 ≤ n := by rw [hsz] at hb; omega
      have hr : 2 * sizeOf rest + 1 ≤ n := by rw [hsz] at hb; omega
      simp only [render_top_fieldsF]
      by_cases hskip : (k == "attachments" || k == "files") = true
      · rw [if_pos hskip]
        exact ih rest hr
      · rw [if_neg hskip]
        by_cases hnest : v.isNested = true
        · rw [if_pos hnest]
          exact isSome_bind_of ((renderF_success n).1 k v 1 hv)
            (fun a => isSome_bind_of (ih rest hr) (fun b => rfl))
        · rw [if_neg hnest]
          exact ih rest hr

/-- Every successful run of the all-dicts list loop contains the enumerated
`name idx` sub-section heading of every item. -/
theorem render_dict_itemsF_enum : ∀ (items : List Json) (fuel : Nat) (name : String)
    (level idx : Nat) (body : List PdfElem),
    render_dict_itemsF fuel items name level idx = some body →
    ∀ j, j < items.length →
      PdfElem.paragraph (name ++ " " ++ toString (idx + j))
        (headingStyleD (level + 1) (headingStyleD level "Heading5")) ∈ body := by
  intro items
  induction items with
  | nil =>
    intro fuel name level idx body h j hj
    simp at hj
  | cons item rest ih =>
    intro fuel name level idx body h j hj
    cases fuel with
    | zero => simp [render_dict_itemsF] at h
    | succ n =>
      cases item <;>
        (simp only [render_dict_itemsF, Option.bind_eq_bind, Option.bind_eq_some] at h
         obtain ⟨b1, hb1, tl, htl, hp⟩ := h
         obtain rfl : _ = body := Option.some.inj hp
         cases j with
         | zero =>
           simp only [Nat.add_zero]
           exact List.mem_cons_self _ _
         | succ jj =>
           have hjj : jj < rest.length := by simpa using hj
           have hmem := ih n name level (idx + 1) tl htl jj hjj
           have harith : idx + (jj + 1) = idx + 1 + jj := by omega
           rw [harith]
           exact List.mem_cons_of_mem _ (List.mem_append_right _ hmem))

/-- C7: the PDF renderer's recursive walk is total.  For every finite
snapshot built from nested dicts, lists, and scalars, `render_section`
succeeds within a fuel bound computed from the snapshot's structure alone —
the recursion is well-founded on the structure — and `snapshot_to_pdf`
produces a document at the given path.  Dicts render as a heading followed by
a `Field`/`Value` table of their scalar entries; all-scalar lists render as a
heading plus one bullet line per item; all-dict lists render as enumerated
`name idx` sub-sections, one per item. -/
theorem renderer_total :
    (∀ (name : String) (v : Json) (level fuel : Nat), 2 * sizeOf v + 1 ≤ fuel →
      ∃ es, render_sectionF fuel name v level = some es) ∧
    (∀ (snapshot : Json) (pdf_path ttl : String) (image_paths : List String)
      (logo : Option String) (fe imgOk : String → Bool) (genTime : String) (fuel : Nat),
      2 * sizeOf snapshot + 3 ≤ fuel →
      ∃ doc, snapshot_to_pdfF fuel snapshot pdf_path ttl image_paths logo fe imgOk genTime =
          some doc ∧ doc.path = pdf_path) ∧
    (∀ (name : String) (fields : List (String × Json)) (level fuel : Nat),
      2 * sizeOf (Json.obj fields) + 1 ≤ fuel →
      ∃ nested, render_sectionF fuel name (.obj fields) level =
        some ((PdfElem.paragraph name (headingStyleD level "Heading5") ::
          (if (fields.filter (fun kv => !kv.2.isNested)).isEmpty then []
           else
             [PdfElem.table
                (grid_table (fields.filter (fun kv => !kv.2.isNested))
                  (if 6 ≤ (fields.filter (fun kv => !kv.2.isNested)).length then 2 else 1))
                (column_widths
                  (if 6 ≤ (fields.filter (fun kv => !kv.2.isNested)).length then 2 else 1)),
              PdfElem.spacer 1 8])) ++ nested)) ∧
    (∀ (name : String) (items : List Json) (level fuel : Nat),
      ((pyLower name == "entries") && items.all Json.isDict) = false →
      items.isEmpty = false →
      items.all (fun i => !i.isNested) = true →
      render_sectionF (fuel + 1) name (.arr items) level =
        some (PdfElem.paragraph name (headingStyleD level "Heading5") ::
          items.map (fun i => PdfElem.paragraph ("- " ++ format_value i) "Body")
            ++ [PdfElem.spacer 1 8])) ∧
    (∀ (name : String) (items : List Json) (level fuel : Nat),
      2 * sizeOf (Json.arr items) + 1 ≤ fuel →
      ((pyLower name == "entries") && items.all Json.isDict) = false →
      items.isEmpty = false →
      items.all (fun i => !i.isNested) = false →
      items.all Json.isDict = true →
      ∃ body, render_sectionF fuel name (.arr items) level =
          some (PdfElem.paragraph name (headingStyleD level "Heading5") :: body) ∧
        ∀ j, j < items.length →
          PdfElem.paragraph (name ++ " " ++ toString (1 + j))
            (headingStyleD (level + 1) (headingStyleD level "Heading5")) ∈ body) := by
  refine ⟨?_, ?_, ?_, ?_, ?_⟩
  · intro name v level fuel hb
    exact Option.isSome_iff_exists.mp ((renderF_success fuel).1 name v level hb)
  · intro snapshot pdf_path ttl image_paths logo fe imgOk genTime fuel hb
    have hs : (snapshot_to_pdfF fuel snapshot pdf_path ttl image_paths logo fe imgOk
        genTime).isSome := by
      unfold snapshot_to_pdfF
      apply isSome_bind_of
      · cases snapshot with
        | obj fields =>
          have hf : 2 * sizeOf fields + 1 ≤ fuel := by
            simp only [Json.obj.sizeOf_spec] at hb; omega
          exact isSome_bind_of (render_top_fieldsF_success fuel fields hf) (fun a => rfl)
        | arr items => exact (renderF_success fuel).1 "Snapshot" _ 1 (by omega)
        | null => exact (renderF_success fuel).1 "Snapshot" _ 1 (by omega)
        | bool b => exact (renderF_success fuel).1 "Snapshot" _ 1 (by omega)
        | num m => exact (renderF_success fuel).1 "Snapshot" _ 1 (by omega)
        | str s => exact (renderF_success fuel).1 "Snapshot" _ 1 (by omega)
      · intro a
        apply isSome_bind_of
        · exact (collectF_success fuel).1 snapshot "" [] fe (by omega)
        · intro p
          obtain ⟨ae, sn⟩ := p
          rfl
    obtain ⟨doc, hdoc⟩ := Option.isSome_iff_exists.mp hs
    refine ⟨doc, hdoc, ?_⟩
    unfold snapshot_to_pdfF at hdoc
    simp only [Option.bind_eq_bind, Option.bind_eq_some] at hdoc
    obtain ⟨a, ha, p, hp, hfinal⟩ := hdoc
    obtain ⟨ae, sn⟩ := p
    have hfin := Option.some.inj hfinal
    rw [← hfin]
  · intro name fields level fuel hb
    cases fuel with
    | zero => exact absurd hb (by simp only [Json.obj.sizeOf_spec]; omega)
    | succ n =>
      cases n with
      | zero => exact absurd hb (by simp only [Json.obj.sizeOf_spec]; omega)
      | succ m =>
        have hf : 2 * sizeOf fields + 1 ≤ m := by
          simp only [Json.obj.sizeOf_spec] at hb; omega
        obtain ⟨nested, hnested⟩ :=
          Option.isSome_iff_exists.mp ((renderF_success m).2.2.1 fields level hf)
        refine ⟨nested, ?_⟩
        simp only [render_sectionF, render_dict_blockF, hnested]
        simp
  · intro name items level fuel hc1 hc2 hc3
    simp [render_sectionF, hc1, hc2, hc3]
  · intro name items level fuel hb hc1 hc2 hc3 hc4
    cases fuel with
    | zero => exact absurd hb (by simp only [Json.arr.sizeOf_spec]; omega)
    | succ n =>
      have hi : 2 * sizeOf items + 1 ≤ n := by
        simp only [Json.arr.sizeOf_spec] at hb; omega
      obtain ⟨body, hbody⟩ :=
        Option.isSome_iff_exists.mp ((renderF_success n).2.2.2.2.2.1 items name level 1 hi)
      have hent : (pyLower name == "entries") = false := by
        rw [hc4, Bool.and_true] at hc1
        exact hc1
      refine ⟨body, ?_, ?_⟩
      · simp [render_sectionF, hent, hc2, hc3, hc4, hbody]
      · intro j hj
        have := render_dict_itemsF_enum items n name level 1 body hbody j hj
        exact this

/-- Witness for C7: concrete renderer runs at the structural fuel bound — a
scalar, an empty snapshot document, an all-scalar list, and an all-dicts
list. -/
theorem renderer_total_witness :
    (∃ es, render_sectionF (2 * sizeOf Json.null + 1) "n" Json.null 0 = some es) ∧
    (∃ doc, snapshot_to_pdfF (2 * sizeOf Json.null + 3) Json.null "out.pdf" "T" [] none
        (fun _ => false) (fun _ => true) "now" = some doc ∧ doc.path = "out.pdf") ∧
    (∃ nested, render_sectionF (2 * sizeOf (Json.obj []) + 1) "s" (Json.obj []) 1 =
      some (PdfElem.paragraph "s" (headingStyleD 1 "Heading5") :: nested)) ∧
    (((pyLower "vals" == "entries") && ([Json.num 1] : List Json).all Json.isDict) = false ∧
     ([Json.num 1] : List Json).isEmpty = false ∧
     ([Json.num 1] : List Json).all (fun i => !i.isNested) = true ∧
     render_sectionF 1 "vals" (Json.arr [Json.num 1]) 0 =
       some (PdfElem.paragraph "vals" (headingStyleD 0 "Heading5") ::
         ([Json.num 1] : List Json).map
             (fun i => PdfElem.paragraph ("- " ++ format_value i) "Body")
           ++ [PdfElem.spacer 1 8])) ∧
    (∃ body, render_sectionF (2 * sizeOf (Json.arr [Json.obj []]) + 1) "rows"
        (Json.arr [Json.obj []]) 0 =
        some (PdfElem.paragraph "rows" (headingStyleD 0 "Heading5") :: body) ∧
      ∀ j, j < ([Json.obj []] : List Json).length →
        PdfElem.paragraph ("rows" ++ " " ++ toString (1 + j))
          (headingStyleD (0 + 1) (headingStyleD 0 "Heading5")) ∈ body) :=
  ⟨renderer_total.1 "n" Json.null 0 _ (Nat.le_refl _),
   renderer_total.2.1 Json.null "out.pdf" "T" [] none (fun _ => false) (fun _ => true)
     "now" _ (Nat.le_refl _),
   renderer_total.2.2.1 "s" [] 1 _ (Nat.le_refl _),
   ⟨by decide, by decide, by decide,
    renderer_total.2.2.2.1 "vals" [Json.num 1] 0 0 (by decide) (by decide) (by decide)⟩,
   renderer_total.2.2.2.2 "rows" [Json.obj []] 0 _ (Nat.le_refl _) (by decide) (by decide)
     (by decide) (by decide)⟩

/-! ## Theorems about the Design Log snapshot save -/

/-- C4: on a valid Design Log submission the page writes the JSON
serialisation of the captured field values (including the capture timestamp
`timestamp_unix`) to the snapshot file, and both the digest stored in the
session state for on-chain anchoring and the digest inside the entry
registered in the manifest's `snapshots` list equal the SHA-256 hex digest
of exactly the bytes written to that file; appended to a fresh manifest, the
snapshots list holds exactly that entry. -/
theorem design_snapshot_digest_consistency
    (dumps : Json → List Nat) (sha256hex : List Nat → String)
    (snapshot_dir : String) (c : DesignFormCapture) :
    (design_snapshot_save dumps sha256hex snapshot_dir c).fileBytes = dumps c.toJson ∧
    c.toJson.get "timestamp_unix" = some (.num c.timestamp_unix) ∧
    (design_snapshot_save dumps sha256hex snapshot_dir c).sessionDigest =
      sha256hex (design_snapshot_save dumps sha256hex snapshot_dir c).fileBytes ∧
    (design_snapshot_save dumps sha256hex snapshot_dir c).registeredEntry.get "digest" =
      some (.str (sha256hex (design_snapshot_save dumps sha256hex snapshot_dir c).fileBytes)) ∧
    (design_snapshot_save dumps sha256hex snapshot_dir c).registeredEntry.get "path" =
      some (.str (design_snapshot_save dumps sha256hex snapshot_dir c).outfilePath) ∧
    (design_snapshot_save dumps sha256hex snapshot_dir c).registeredEntry.get "step" =
      some (.str "design") ∧
    (design_snapshot_save dumps sha256hex snapshot_dir c).registeredEntry.get "timestamp" =
      some (.num c.timestamp_unix) ∧
    ∃ m' cats',
      register_file_edit (.obj defaultManifestFields) "snapshots"
          (design_snapshot_save dumps sha256hex snapshot_dir c).registeredEntry = .ok m' ∧
      m'.get "files" = some (.obj cats') ∧
      Json.get.lookupField cats' "snapshots" =
        some (.arr [(design_snapshot_save dumps sha256hex snapshot_dir c).registeredEntry]) := by
  refine ⟨rfl, rfl, rfl, rfl, rfl, rfl, rfl, ?_⟩
  obtain ⟨m', hedit, _, ⟨cats', hfiles, hsnap, _⟩, _⟩ :=
    register_file_edit_frame defaultManifestFields defaultFilesFields [] "snapshots"
      (design_snapshot_save dumps sha256hex snapshot_dir c).registeredEntry
      (Or.inl rfl) (Or.inl rfl)
  exact ⟨m', cats', hedit, hfiles, by simpa using hsnap⟩

/-! ## Theorems about `parse_guides_and_donors` -/

theorem isDnaChar_not_space {c : Char} (h : isDnaChar c = true) :
    isSpaceChar c = false := by
  simp only [isDnaChar, decide_eq_true_eq] at h
  rcases h with rfl | rfl | rfl | rfl | rfl | rfl | rfl | rfl | rfl | rfl <;> decide

theorem isDnaChar_clean {c : Char} (h : isDnaChar c = true) :
    isCleanChar c = true := by
  simp only [isDnaChar, decide_eq_true_eq] at h
  rcases h with rfl | rfl | rfl | rfl | rfl | rfl | rfl | rfl | rfl | rfl <;> decide

theorem isSpaceChar_not_dna {c : Char} (h : isSpaceChar c = true) :
    isDnaChar c = false := by
  simp only [isSpaceChar, decide_eq_true_eq] at h
  rcases h with rfl | rfl | rfl | rfl | rfl | rfl <;> decide

/-- Every character of a `_clean_seq` result is one of `A`, `C`, `G`, `T`,
`N` (uppercasing maps the class into `{A,C,G,T,U,N}` and the final replace
maps `U` to `T`). -/
theorem clean_seq_alphabet (s : String) :
    ∀ c ∈ (clean_seq s).data, c ∈ (['A', 'C', 'G', 'T', 'N'] : List Char) := by
  intro c hc
  simp only [clean_seq, List.mem_map] at hc
  obtain ⟨c1, hc1, rfl⟩ := hc
  obtain ⟨c0, hc0, rfl⟩ := hc1
  have h0 : isCleanChar c0 = true := (List.mem_filter.mp hc0).2
  simp only [isCleanChar, decide_eq_true_eq] at h0
  rcases h0 with rfl | rfl | rfl | rfl | rfl | rfl | rfl | rfl | rfl | rfl | rfl | rfl <;>
    decide

theorem dropWhile_eq_self_of {p : Char → Bool} {l : List Char}
    (h : ∀ c ∈ l, p c = false) : l.dropWhile p = l := by
  cases l with
  | nil => rfl
  | cons a l => simp [List.dropWhile_cons, h a (List.mem_cons_self a l)]

theorem pyStrip_eq_self {l : List Char} (h : ∀ c ∈ l, isSpaceChar c = false) :
    pyStrip l = l := by
  unfold pyStrip
  rw [dropWhile_eq_self_of h,
    dropWhile_eq_self_of (fun c hc => h c (List.mem_reverse.mp hc)), List.reverse_reverse]

/-- Cleaning a pure DNA run keeps its length (no character is stripped or
filtered; the two maps are length-preserving). -/
theorem clean_seq_length_of_dna {l : List Char} (h : ∀ c ∈ l, isDnaChar c = true) :
    (clean_seq ⟨l⟩).length = l.length := by
  unfold clean_seq
  rw [show (String.mk l).data = l from rfl]
  rw [pyStrip_eq_self (fun c hc => isDnaChar_not_space (h c hc))]
  rw [List.filter_eq_self.mpr (fun c hc => isDnaChar_clean (h c hc))]
  simp [String.length]

/-- Every run produced by `dnaRunsAux` consists of DNA-class characters. -/
theorem dnaRunsAux_all_dna : ∀ (l acc : List Char),
    (∀ c ∈ acc, isDnaChar c = true) →
    ∀ r ∈ dnaRunsAux l acc, ∀ c ∈ r, isDnaChar c = true := by
  intro l
  induction l with
  | nil =>
    intro acc hacc r hr c hc
    simp only [dnaRunsAux] at hr
    by_cases he : acc.isEmpty
    · simp [he] at hr
    · simp [he] at hr
      subst hr
      exact hacc c (List.mem_reverse.mp hc)
  | cons a rest ih =>
    intro acc hacc r hr c hc
    simp only [dnaRunsAux] at hr
    by_cases hd : isDnaChar a = true
    · rw [if_pos hd] at hr
      exact ih (a :: acc)
        (fun x hx => by rcases List.mem_cons.mp hx with rfl | hx; exact hd; exact hacc x hx)
        r hr c hc
    · rw [if_neg hd] at hr
      by_cases he : acc.isEmpty
      · rw [if_pos he] at hr
        exact ih [] (by simp) r hr c hc
      · rw [if_neg he] at hr
        rcases List.mem_cons.mp hr with rfl | hr
        · exact hacc c (List.mem_reverse.mp hc)
        · exact ih [] (by simp) r hr c hc

theorem dnaFindall_all_dna {l : List Char} :
    ∀ r ∈ dnaFindall l, ∀ c ∈ r, isDnaChar c = true := by
  intro r hr
  exact dnaRunsAux_all_dna l [] (by simp) r (List.mem_filter.mp hr).1

/-- Newline normalisation does not change the DNA runs: `\r` and `\n` are
both outside the DNA class, so replacing one separator by another (or
collapsing a `\r\n` pair into one separator) leaves every maximal run as it
is. -/
theorem dnaRunsAux_normalize : ∀ (n : Nat) (l : List Char), l.length ≤ n →
    ∀ acc, dnaRunsAux (normalizeNewlines l) acc = dnaRunsAux l acc := by
  intro n
  induction n with
  | zero =>
    intro l hl acc
    obtain rfl : l = [] := List.length_eq_zero.mp (Nat.le_zero.mp hl)
    rw [normalizeNewlines.eq_1]
  | succ m ih =>
    intro l hl acc
    cases l with
    | nil => rw [normalizeNewlines.eq_1]
    | cons c rest =>
      rw [normalizeNewlines.eq_2]
      by_cases hc : c = '\r'
      · subst hc
        rw [if_pos rfl]
        by_cases hh : rest.head? = some '\n'
        · rw [if_pos hh]
          obtain ⟨rest2, rfl⟩ : ∃ rest2, rest = '\n' :: rest2 := by
            cases rest with
            | nil => simp at hh
            | cons a t =>
              simp only [List.head?_cons, Option.some.injEq] at hh
              subst hh
              exact ⟨t, rfl⟩
          simp only [List.tail_cons]
          have hrest2 : rest2.length ≤ m := by simp at hl; omega
          simp [dnaRunsAux, (by decide : isDnaChar '\r' = false),
            (by decide : isDnaChar '\n' = false), ih rest2 hrest2]
        · rw [if_neg hh]
          have hrest : rest.length ≤ m := by simp at hl; omega
          simp [dnaRunsAux, (by decide : isDnaChar '\r' = false),
            (by decide : isDnaChar '\n' = false), ih rest hrest]
      · rw [if_neg hc]
        have hrest : rest.length ≤ m := by simp at hl; omega
        by_cases hd : isDnaChar c = true
        · simp [dnaRunsAux, hd, ih rest hrest]
        · simp [dnaRunsAux, hd, ih rest hrest]

/-- Leading separator characters do not change the runs. -/
theorem dnaRunsAux_drop_leading : ∀ (s l : List Char),
    (∀ c ∈ s, isSpaceChar c = true) →
    dnaRunsAux (s ++ l) [] = dnaRunsAux l [] := by
  intro s
  induction s with
  | nil => intro l _; rfl
  | cons c s' ih =>
    intro l h
    have hc : isDnaChar c = false := isSpaceChar_not_dna (h c (List.mem_cons_self c s'))
    simp only [List.cons_append, dnaRunsAux, hc, if_neg (by simp [hc] : ¬ (isDnaChar c = true)),
      List.isEmpty_nil, if_pos rfl]
    exact ih l (fun x hx => h x (List.mem_cons_of_mem c hx))

/-- A trailing separator character does not change the runs. -/
theorem dnaRunsAux_drop_trailing_one : ∀ (l : List Char) (acc : List Char) (c : Char),
    isDnaChar c = false →
    dnaRunsAux (l ++ [c]) acc = dnaRunsAux l acc := by
  intro l
  induction l with
  | nil =>
    intro acc c hc
    by_cases hacc : acc.isEmpty <;>
      simp [dnaRunsAux, hc, hacc]
  | cons d l' ih =>
    intro acc c hc
    simp only [List.cons_append, dnaRunsAux]
    by_cases hd : isDnaChar d = true
    · simp only [if_pos hd]
      exact ih (d :: acc) c hc
    · simp only [if_neg hd]
      by_cases hacc : acc.isEmpty
      · simp only [if_pos hacc]
        exact ih [] c hc
      · simp only [if_neg hacc]
        exact congrArg (acc.reverse :: ·) (ih [] c hc)

/-- Trailing separator characters do not change the runs. -/
theorem dnaRunsAux_drop_trailing : ∀ (t l : List Char),
    (∀ c ∈ t, isSpaceChar c = true) →
    dnaRunsAux (l ++ t) [] = dnaRunsAux l [] := by
  intro t
  induction t using List.reverseRecOn with
  | nil => intro l _; simp
  | append_singleton t' c ih =>
    intro l h
    rw [show l ++ (t' ++ [c]) = (l ++ t') ++ [c] from by simp,
      dnaRunsAux_drop_trailing_one _ _ _
        (isSpaceChar_not_dna (h c (by simp)))]
    exact ih l (fun x hx => h x (by simp [hx]))

/-- `str.strip()` does not change the DNA runs. -/
theorem dnaRunsAux_pyStrip (l : List Char) :
    dnaRunsAux (pyStrip l) [] = dnaRunsAux l [] := by
  have h1 : l = l.takeWhile isSpaceChar ++ l.dropWhile isSpaceChar :=
    (List.takeWhile_append_dropWhile ..).symm
  have h2 : dnaRunsAux l [] = dnaRunsAux (l.dropWhile isSpaceChar) [] := by
    conv_lhs => rw [h1]
    exact dnaRunsAux_drop_leading _ _ (fun c hc => List.mem_takeWhile_imp hc)
  set m := l.dropWhile isSpaceChar with hm
  have h3 : m = pyStrip l ++ (m.reverse.takeWhile isSpaceChar).reverse := by
    have hps : pyStrip l = (m.reverse.dropWhile isSpaceChar).reverse := by
      unfold pyStrip
      rw [← hm]
    rw [hps]
    conv_lhs => rw [← List.reverse_reverse m]
    conv_lhs =>
      rw [← List.takeWhile_append_dropWhile (p := isSpaceChar) (l := m.reverse)]
    rw [List.reverse_append]
  rw [h2]
  conv_rhs => rw [h3]
  rw [dnaRunsAux_drop_trailing _ _
    (fun c hc => List.mem_takeWhile_imp (List.mem_reverse.mp hc))]

/-- The DNA runs the parser scans (of the stripped, newline-normalised text)
are exactly the DNA runs of the raw pasted input. -/
theorem dnaFindall_normalized (p : List Char) :
    dnaFindall (normalizeNewlines (pyStrip p)) = dnaFindall p := by
  unfold dnaFindall
  rw [dnaRunsAux_normalize (pyStrip p).length _ (Nat.le_refl _), dnaRunsAux_pyStrip]

/-- The dedup loop output is a sublist of its input (order preserved). -/
theorem dedupGuides_sublist : ∀ (gs : List Guide) (seen : List String),
    (dedupGuides gs seen).Sublist gs := by
  intro gs
  induction gs with
  | nil => intro seen; simp [dedupGuides]
  | cons g rest ih =>
    intro seen
    rw [dedupGuides]
    by_cases h : g.sequence ≠ "" ∧ ¬ seen.contains g.sequence
    · rw [if_pos h]
      exact (ih (g.sequence :: seen)).cons₂ g
    · rw [if_neg h]
      exact (ih seen).cons g

/-- The dedup loop output has pairwise-distinct sequences, none of them
already seen. -/
theorem dedupGuides_nodup : ∀ (gs : List Guide) (seen : List String),
    ((dedupGuides gs seen).map (fun g => g.sequence)).Nodup ∧
    ∀ s ∈ (dedupGuides gs seen).map (fun g => g.sequence), ¬ seen.contains s := by
  intro gs
  induction gs with
  | nil => intro seen; simp [dedupGuides]
  | cons g rest ih =>
    intro seen
    rw [dedupGuides]
    by_cases h : g.sequence ≠ "" ∧ ¬ seen.contains g.sequence
    · rw [if_pos h]
      obtain ⟨ihn, ihs⟩ := ih (g.sequence :: seen)
      refine ⟨?_, ?_⟩
      · simp only [List.map_cons, List.nodup_cons]
        refine ⟨fun hmem => ?_, ihn⟩
        have := ihs _ hmem
        simp [List.contains_cons] at this
      · intro s hs
        simp only [List.map_cons, List.mem_cons] at hs
        rcases hs with rfl | hs
        · exact h.2
        · have := ihs s hs
          simp only [List.contains_cons, Bool.or_eq_true, not_or] at this
          intro hcon
          exact this.2 hcon
    · rw [if_neg h]
      exact ih seen

/-- `dedupGuides` keeps the first occurrence of each sequence: a kept guide
never repeats a sequence kept before it, and every guide of the input with a
non-empty sequence not seen before has a representative in the output. -/
theorem dedupGuides_complete : ∀ (gs : List Guide) (seen : List String),
    ∀ g ∈ gs, g.sequence ≠ "" → ¬ seen.contains g.sequence →
    ∃ g' ∈ dedupGuides gs seen, g'.sequence = g.sequence := by
  intro gs
  induction gs with
  | nil => intro seen g hg; simp at hg
  | cons g0 rest ih =>
    intro seen g hg hne hnotseen
    rw [dedupGuides]
    rcases List.mem_cons.mp hg with rfl | hg
    · rw [if_pos ⟨hne, hnotseen⟩]
      exact ⟨g, List.mem_cons_self _ _, rfl⟩
    · by_cases h : g0.sequence ≠ "" ∧ ¬ seen.contains g0.sequence
      · rw [if_pos h]
        by_cases heq : g.sequence = g0.sequence
        · exact ⟨g0, List.mem_cons_self _ _, heq.symm⟩
        · have hnot2 : ¬ (g0.sequence :: seen).contains g.sequence := by
            simp only [List.contains_cons, Bool.or_eq_true, beq_iff_eq, not_or]
            exact ⟨heq, fun hc => hnotseen hc⟩
          obtain ⟨g', hg', hseq⟩ := ih (g0.sequence :: seen) g hg hne hnot2
          exact ⟨g', List.mem_cons_of_mem _ hg', hseq⟩
      · rw [if_neg h]
        exact ih seen g hg hne hnotseen

theorem maxByLen_mem : ∀ (l : List String) (best : String),
    maxByLen l best = best ∨ maxByLen l best ∈ l := by
  intro l
  induction l with
  | nil => intro best; left; rfl
  | cons s rest ih =>
    intro best
    rw [maxByLen]
    by_cases h : best.length < s.length
    · rw [if_pos h]
      rcases ih s with he | hm
      · right; rw [he]; exact List.mem_cons_self _ _
      · right; exact List.mem_cons_of_mem _ hm
    · rw [if_neg h]
      rcases ih best with he | hm
      · left; exact he
      · right; exact List.mem_cons_of_mem _ hm

theorem maxByLen_ge : ∀ (l : List String) (best : String),
    best.length ≤ (maxByLen l best).length ∧
    ∀ s ∈ l, s.length ≤ (maxByLen l best).length := by
  intro l
  induction l with
  | nil => intro best; exact ⟨Nat.le_refl _, by simp⟩
  | cons s rest ih =>
    intro best
    rw [maxByLen]
    by_cases h : best.length < s.length
    · rw [if_pos h]
      obtain ⟨h1, h2⟩ := ih s
      refine ⟨Nat.le_trans (Nat.le_of_lt h) h1, ?_⟩
      intro x hx
      rcases List.mem_cons.mp hx with rfl | hx
      · exact h1
      · exact h2 x hx
    · rw [if_neg h]
      obtain ⟨h1, h2⟩ := ih best
      refine ⟨h1, ?_⟩
      intro x hx
      rcases List.mem_cons.mp hx with rfl | hx
      · exact Nat.le_trans (Nat.le_of_not_lt h) h1
      · exact h2 x hx

/-- Every guide the CRISPOR row parser emits carries a cleaned sequence of
length 19–24. -/
theorem crisporRow_shape (tryFloat : String → Option Float) (default_pam : String)
    (posCol strandCol seqCol pamCol specCol effCol : Option Nat)
    (line : List Char) (g : Guide)
    (h : crisporRow tryFloat default_pam posCol strandCol seqCol pamCol specCol effCol
      line = some g) :
    (∃ src, g.sequence = clean_seq src) ∧
      19 ≤ g.sequence.length ∧ g.sequence.length ≤ 24 := by
  unfold crisporRow at h
  by_cases h1 : (pyStrip line).isEmpty
  · rw [if_pos h1] at h
    exact absurd h (by simp)
  · rw [if_neg h1] at h
    by_cases h2 : (splitKeepEmpty isSepChar (pyStrip line) []).length < 3
    · rw [if_pos h2] at h
      exact absurd h (by simp)
    · rw [if_neg h2] at h
      by_cases h3 : ¬ (19 ≤ (match getCol (splitKeepEmpty isSepChar (pyStrip line) []) seqCol
            with
          | some p => clean_seq ⟨p⟩
          | none => "").length ∧
          (match getCol (splitKeepEmpty isSepChar (pyStrip line) []) seqCol with
          | some p => clean_seq ⟨p⟩
          | none => "").length ≤ 24)
      · rw [if_pos h3] at h
        exact absurd h (by simp)
      · rw [if_neg h3] at h
        push_neg at h3
        obtain rfl : _ = g := Option.some.inj h
        refine ⟨?_, h3.1, h3.2⟩
        cases hc : getCol (splitKeepEmpty isSepChar (pyStrip line) []) seqCol with
        | some p => exact ⟨⟨p⟩, rfl⟩
        | none => exact ⟨"", rfl⟩

/-- Every guide of the fallback TSV path carries a cleaned sequence of
length 19–24. -/
theorem fallbackGuides_shape (default_pam : String) (lines : List (List Char))
    (g : Guide) (h : g ∈ fallbackGuides default_pam lines) :
    (∃ src, g.sequence = clean_seq src) ∧
      19 ≤ g.sequence.length ∧ g.sequence.length ≤ 24 := by
  unfold fallbackGuides at h
  rw [List.mem_flatMap] at h
  obtain ⟨line, _, hmem⟩ := h
  by_cases hb : (pyStrip line).isEmpty
  · rw [if_pos hb] at hmem
    simp at hmem
  · rw [if_neg hb] at hmem
    simp only [List.mem_map] at hmem
    obtain ⟨tok, htok, rfl⟩ := hmem
    have htok' := List.mem_of_mem_take htok
    simp only [List.mem_flatMap, List.mem_filter, List.mem_map] at htok'
    obtain ⟨part, _, ⟨⟨t, _, rfl⟩, hlen⟩⟩ := htok'
    simp only [decide_eq_true_eq] at hlen
    exact ⟨⟨⟨t⟩, rfl⟩, hlen.1, hlen.2⟩

/-- Every guide of the labeled-sequence path carries a cleaned sequence of
length 19–24. -/
theorem labelGuides_shape (default_pam : String) (found : List String)
    (g : Guide) (h : g ∈ labelGuides default_pam found) :
    (∃ src, g.sequence = clean_seq src) ∧
      19 ≤ g.sequence.length ∧ g.sequence.length ≤ 24 := by
  unfold labelGuides at h
  rw [List.mem_filterMap] at h
  obtain ⟨m, _, hm⟩ := h
  by_cases hc : 19 ≤ (clean_seq m).length ∧ (clean_seq m).length ≤ 24
  · rw [if_pos hc] at hm
    obtain rfl : _ = g := Option.some.inj hm
    exact ⟨⟨m, rfl⟩, hc.1, hc.2⟩
  · rw [if_neg hc] at hm
    exact absurd hm (by simp)

/-- Every guide produced by any of the three parsing paths carries a cleaned
sequence of length 19–24. -/
theorem allGuides_shape (tryFloat : String → Option Float)
    (labelFinds : String → List String) (default_pam : String)
    (normalized : List Char) (g : Guide)
    (h : g ∈ allGuides tryFloat labelFinds default_pam normalized) :
    (∃ src, g.sequence = clean_seq src) ∧
      19 ≤ g.sequence.length ∧ g.sequence.length ≤ 24 := by
  unfold allGuides at h
  by_cases h2 : (if (crisporPath tryFloat default_pam
        (splitKeepEmpty (fun c => c = '\n') normalized [])).isEmpty then
      fallbackGuides default_pam (splitKeepEmpty (fun c => c = '\n') normalized [])
    else crisporPath tryFloat default_pam
      (splitKeepEmpty (fun c => c = '\n') normalized [])).isEmpty = true
  · rw [if_pos h2] at h
    exact labelGuides_shape default_pam _ g h
  · rw [if_neg h2] at h
    by_cases h1 : (crisporPath tryFloat default_pam
        (splitKeepEmpty (fun c => c = '\n') normalized [])).isEmpty = true
    · rw [if_pos h1] at h
      exact fallbackGuides_shape default_pam _ g h
    · rw [if_neg h1] at h
      unfold crisporPath at h
      cases hh : splitAtHeader (splitKeepEmpty (fun c => c = '\n') normalized []) with
      | none =>
        rw [hh] at h
        simp at h
      | some hr =>
        obtain ⟨header, rows⟩ := hr
        rw [hh] at h
        unfold crisporGuides at h
        rw [List.mem_filterMap] at h
        obtain ⟨line, _, hrow⟩ := h
        exact crisporRow_shape tryFloat default_pam _ _ _ _ _ _ line g hrow

/-- Membership in the donor-candidate list. -/
theorem donor_candidate_mem (normalized : List Char) (x : String) :
    x ∈ ((dnaFindall normalized).map (fun t => clean_seq ⟨t⟩)).filter
        (fun c => 60 ≤ c.length) ↔
      ∃ run ∈ dnaFindall normalized, x = clean_seq ⟨run⟩ ∧ 60 ≤ x.length := by
  rw [List.mem_filter]
  simp only [List.mem_map, decide_eq_true_eq]
  constructor
  · rintro ⟨⟨run, hrun, rfl⟩, hlen⟩
    exact ⟨run, hrun, rfl, hlen⟩
  · rintro ⟨run, hrun, rfl, hlen⟩
    exact ⟨⟨run, hrun, rfl⟩, hlen⟩

/-- The donor exists iff some cleaned run reaches 60 nt; it then is a longest
cleaned run with its `length_nt` equal to its sequence length. -/
theorem donorOf_spec (normalized : List Char) :
    ((donorOf normalized).isSome ↔
      ∃ run ∈ dnaFindall normalized, 60 ≤ (clean_seq ⟨run⟩).length) ∧
    ∀ d, donorOf normalized = some d →
      d.donor_type = "ssODN" ∧
      (∃ run ∈ dnaFindall normalized, d.sequence = clean_seq ⟨run⟩) ∧
      60 ≤ d.sequence.length ∧
      d.length_nt = d.sequence.length ∧
      ∀ run ∈ dnaFindall normalized, 60 ≤ (clean_seq ⟨run⟩).length →
        (clean_seq ⟨run⟩).length ≤ d.sequence.length := by
  unfold donorOf
  rcases hc : ((dnaFindall normalized).map (fun t => clean_seq ⟨t⟩)).filter
      (fun c => 60 ≤ c.length) with _ | ⟨c, cs⟩
  · rw [hc]
    constructor
    · constructor
      · intro h
        simp at h
      · rintro ⟨run, hrun, hlen⟩
        have hmem : clean_seq ⟨run⟩ ∈
            ((dnaFindall normalized).map (fun t => clean_seq ⟨t⟩)).filter
              (fun c => 60 ≤ c.length) :=
          (donor_candidate_mem normalized _).mpr ⟨run, hrun, rfl, hlen⟩
        rw [hc] at hmem
        simp at hmem
    · intro d hd
      simp at hd
  · rw [hc]
    have hcm : c ∈ ((dnaFindall normalized).map (fun t => clean_seq ⟨t⟩)).filter
        (fun c => 60 ≤ c.length) := by
      rw [hc]
      exact List.mem_cons_self _ _
    obtain ⟨r1, hr1, hceq1, hc60⟩ := (donor_candidate_mem normalized c).mp hcm
    have h60 : 60 ≤ (maxByLen cs c).length :=
      Nat.le_trans hc60 (maxByLen_ge cs c).1
    have hne : ¬ maxByLen cs c = "" := by
      intro he
      rw [he] at h60
      simp at h60
    rw [if_neg hne]
    have hmax_mem : maxByLen cs c ∈
        ((dnaFindall normalized).map (fun t => clean_seq ⟨t⟩)).filter
          (fun c => 60 ≤ c.length) := by
      rw [hc]
      rcases maxByLen_mem cs c with he | hm
      · rw [he]
        exact List.mem_cons_self _ _
      · exact List.mem_cons_of_mem _ hm
    obtain ⟨run0, hrun0, hseq0, hlen0⟩ := (donor_candidate_mem normalized _).mp hmax_mem
    constructor
    · constructor
      · intro _
        exact ⟨run0, hrun0, by rw [← hseq0]; exact hlen0⟩
      · intro _
        rfl
    · intro d hd
      obtain rfl : _ = d := Option.some.inj hd
      refine ⟨rfl, ⟨run0, hrun0, hseq0⟩, hlen0, rfl, ?_⟩
      intro run hrun hr60
      have hmem : clean_seq ⟨run⟩ ∈
          ((dnaFindall normalized).map (fun t => clean_seq ⟨t⟩)).filter
            (fun c => 60 ≤ c.length) :=
        (donor_candidate_mem normalized _).mpr ⟨run, hrun, rfl, hr60⟩
      rw [hc] at hmem
      rcases List.mem_cons.mp hmem with he | hm
      · rw [he]
        exact (maxByLen_ge cs c).1
      · exact (maxByLen_ge cs c).2 _ hm

/-- C10: for every input text and default PAM, `parse_guides_and_donors`
returns at most six guides with pairwise-distinct sequences listed in order
of first occurrence (the result is the first-occurrence dedup of the
collected candidate list, capped at six), each a cleaned sequence of length
19 to 24 over the alphabet `{A, C, G, T, N}` (`U` is mapped to `T` by
cleaning); and the donor is non-`none` iff the input contains a DNA run
whose cleaned form has length at least 60, in which case the donor's
sequence is a longest such cleaned run and its `length_nt` equals that
sequence's length. -/
theorem parse_guides_and_donors_spec
    (tryFloat : String → Option Float) (labelFinds : String → List String)
    (pasted default_pam : String) :
    (parse_guides_and_donors tryFloat labelFinds pasted default_pam).guides.length ≤ 6 ∧
    ((parse_guides_and_donors tryFloat labelFinds pasted default_pam).guides.map
        (fun g => g.sequence)).Nodup ∧
    (∃ raw : List Guide,
      (parse_guides_and_donors tryFloat labelFinds pasted default_pam).guides =
        (dedupGuides raw []).take 6 ∧
      ∀ g ∈ raw, (∃ src, g.sequence = clean_seq src) ∧
        19 ≤ g.sequence.length ∧ g.sequence.length ≤ 24) ∧
    (∀ g ∈ (parse_guides_and_donors tryFloat labelFinds pasted default_pam).guides,
      (19 ≤ g.sequence.length ∧ g.sequence.length ≤ 24) ∧
      ∀ c ∈ g.sequence.data, c ∈ (['A', 'C', 'G', 'T', 'N'] : List Char)) ∧
    ((parse_guides_and_donors tryFloat labelFinds pasted default_pam).donor.isSome ↔
      ∃ run ∈ dnaFindall pasted.data, 60 ≤ (clean_seq ⟨run⟩).length) ∧
    (∀ d, (parse_guides_and_donors tryFloat labelFinds pasted default_pam).donor = some d →
      d.donor_type = "ssODN" ∧
      (∃ run ∈ dnaFindall pasted.data, d.sequence = clean_seq ⟨run⟩) ∧
      60 ≤ d.sequence.length ∧
      d.length_nt = d.sequence.length ∧
      ∀ run ∈ dnaFindall pasted.data, 60 ≤ (clean_seq ⟨run⟩).length →
        (clean_seq ⟨run⟩).length ≤ d.sequence.length) := by
  by_cases htext : (pyStrip pasted.data).isEmpty = true
  · have hres : parse_guides_and_donors tryFloat labelFinds pasted default_pam =
        { guides := [], donor := none } := by
      unfold parse_guides_and_donors
      rw [if_pos htext]
    have hrun : dnaFindall pasted.data = [] := by
      rw [← dnaFindall_normalized pasted.data]
      have hnil : pyStrip pasted.data = [] := by simpa using htext
      rw [hnil, normalizeNewlines.eq_1]
      rfl
    rw [hres]
    refine ⟨by simp, by simp, ⟨[], by simp [dedupGuides], by simp⟩, by simp, ?_, ?_⟩
    · simp [hrun]
    · intro d hd
      simp at hd
  · have hres : parse_guides_and_donors tryFloat labelFinds pasted default_pam =
        { guides := (dedupGuides (allGuides tryFloat labelFinds default_pam
            (normalizeNewlines (pyStrip pasted.data))) []).take 6
          donor := donorOf (normalizeNewlines (pyStrip pasted.data)) } := by
      unfold parse_guides_and_donors
      rw [if_neg htext]
    rw [hres]
    have hdna : dnaFindall (normalizeNewlines (pyStrip pasted.data)) =
        dnaFindall pasted.data := dnaFindall_normalized _
    obtain ⟨hiff, hd⟩ := donorOf_spec (normalizeNewlines (pyStrip pasted.data))
    refine ⟨?_, ?_, ?_, ?_, ?_, ?_⟩
    · exact List.length_take_le _ _
    · have h1 := (dedupGuides_nodup (allGuides tryFloat labelFinds default_pam
        (normalizeNewlines (pyStrip pasted.data))) []).1
      have hsub : (((dedupGuides (allGuides tryFloat labelFinds default_pam
            (normalizeNewlines (pyStrip pasted.data))) []).take 6).map
            (fun g => g.sequence)).Sublist
          ((dedupGuides (allGuides tryFloat labelFinds default_pam
            (normalizeNewlines (pyStrip pasted.data))) []).map (fun g => g.sequence)) :=
        (List.take_sublist _ _).map _
      exact h1.sublist hsub
    · exact ⟨allGuides tryFloat labelFinds default_pam
        (normalizeNewlines (pyStrip pasted.data)), rfl,
        fun g hg => allGuides_shape tryFloat labelFinds default_pam _ g hg⟩
    · intro g hg
      have hg' : g ∈ dedupGuides (allGuides tryFloat labelFinds default_pam
          (normalizeNewlines (pyStrip pasted.data))) [] := List.mem_of_mem_take hg
      have hg'' : g ∈ allGuides tryFloat labelFinds default_pam
          (normalizeNewlines (pyStrip pasted.data)) :=
        (dedupGuides_sublist _ []).subset hg'
      obtain ⟨⟨src, hsrc⟩, hl1, hl2⟩ :=
        allGuides_shape tryFloat labelFinds default_pam _ g hg''
      refine ⟨⟨hl1, hl2⟩, ?_⟩
      rw [hsrc]
      exact clean_seq_alphabet src
    · rw [← hdna]
      exact hiff
    · rw [← hdna]
      intro d hdo
      exact hd d hdo

end AssuredChain
